import Mathlib

/-!
Verification of an MPMC channel library (array / list / zero flavors).

The Rust sources under `src/mpmc/` are shallowly embedded below.  Machine
integers (`usize`, 64-bit) are modeled as `Nat` with explicit reduction
modulo `2 ^ 64` at every wrapping operation; Rust's bitwise operators map
to `Nat`'s `&&&`, `|||`, `^^^`.  Concurrency is modeled by sequential
(one operation at a time) semantics: an operation that would spin or park
forever in a single-threaded execution is represented by an `Option`
result of `none`.  Atomic loads/stores/CAS collapse to plain state reads
and writes under this semantics, and a CAS never fails.
-/

namespace Channel

/-- `2 ^ 64`, the modulus of `usize` arithmetic on the modeled platform. -/
def M : Nat := 2 ^ 64

/-- Rust `usize::next_power_of_two`: smallest power of two `≥ n`. -/
def nextPow2 (n : Nat) : Nat := 2 ^ Nat.clog 2 n

theorem nextPow2_ge (n : Nat) : n ≤ nextPow2 n :=
  Nat.le_pow_clog one_lt_two n

theorem nextPow2_le_pow {n j : Nat} (h : n ≤ 2 ^ j) : nextPow2 n ≤ 2 ^ j := by
  have := (Nat.le_pow_iff_clog_le one_lt_two).1 h
  exact Nat.pow_le_pow_right (by omega) this

/-- Bitwise complement of a 64-bit word (`!x` in Rust). -/
def unot (x : Nat) : Nat := (M - 1) ^^^ x

/-! ### Digit-form lemmas

Every head/tail/stamp value occurring in a reachable array-channel state has
the form `2 ^ (k+1) * a + (2 ^ k * e + i)` with `i < 2 ^ k`, `e ≤ 1` (the mark
bit) and `a < 2 ^ (63 - k)` (the lap), where `mark_bit = 2 ^ k`.  The lemmas
below evaluate the source's bit operations on values of this form. -/

theorem pow_split {k : Nat} (hk : k ≤ 63) : 2 ^ (k + 1) * 2 ^ (63 - k) = M := by
  unfold M
  rw [← pow_add]
  congr 1
  omega

theorem digit_lt {k a r : Nat} (hk : k ≤ 63) (ha : a < 2 ^ (63 - k))
    (hr : r < 2 ^ (k + 1)) : 2 ^ (k + 1) * a + r < M := by
  have h1 : 2 ^ (k + 1) * a + 2 ^ (k + 1) ≤ 2 ^ (k + 1) * 2 ^ (63 - k) := by
    have := Nat.mul_le_mul_left (2 ^ (k + 1)) (Nat.succ_le_of_lt ha)
    simpa [Nat.mul_succ] using this
  rw [pow_split hk] at h1
  omega

theorem digits_mod {k a r : Nat} (hk : k ≤ 63) (hr : r < 2 ^ (k + 1)) :
    (2 ^ (k + 1) * a + r) % M = 2 ^ (k + 1) * (a % 2 ^ (63 - k)) + r := by
  have hN : 0 < 2 ^ (63 - k) := Nat.pos_pow_of_pos _ (by norm_num)
  calc (2 ^ (k + 1) * a + r) % M
      = (2 ^ (k + 1) * (2 ^ (63 - k) * (a / 2 ^ (63 - k)) + a % 2 ^ (63 - k)) + r)
          % M := by rw [Nat.div_add_mod]
    _ = ((2 ^ (k + 1) * (a % 2 ^ (63 - k)) + r) +
          (2 ^ (k + 1) * 2 ^ (63 - k)) * (a / 2 ^ (63 - k))) % M := by ring_nf
    _ = ((2 ^ (k + 1) * (a % 2 ^ (63 - k)) + r) + M * (a / 2 ^ (63 - k))) % M := by
          rw [pow_split hk]
    _ = (2 ^ (k + 1) * (a % 2 ^ (63 - k)) + r) % M := by
          rw [Nat.add_mul_mod_self_left]
    _ = 2 ^ (k + 1) * (a % 2 ^ (63 - k)) + r := by
          apply Nat.mod_eq_of_lt
          exact digit_lt hk (Nat.mod_lt _ hN) hr

theorem digits_inj {k a b r s : Nat} (hr : r < 2 ^ (k + 1)) (hs : s < 2 ^ (k + 1))
    (h : 2 ^ (k + 1) * a + r = 2 ^ (k + 1) * b + s) : a = b ∧ r = s := by
  have h1 : (2 ^ (k + 1) * a + r) / 2 ^ (k + 1) = a := by
    rw [Nat.mul_add_div (Nat.pos_pow_of_pos _ (by norm_num))]
    simp [Nat.div_eq_of_lt hr]
  have h2 : (2 ^ (k + 1) * b + s) / 2 ^ (k + 1) = b := by
    rw [Nat.mul_add_div (Nat.pos_pow_of_pos _ (by norm_num))]
    simp [Nat.div_eq_of_lt hs]
  have hab : a = b := by rw [← h1, ← h2, h]
  constructor
  · exact hab
  · subst hab; omega

theorem digit_and_lo {k a e i : Nat} (hi : i < 2 ^ k) (he : e ≤ 1) :
    (2 ^ (k + 1) * a + (2 ^ k * e + i)) &&& (2 ^ k - 1) = i := by
  have := Nat.and_pow_two_sub_one_eq_mod (2 ^ (k + 1) * a + (2 ^ k * e + i)) k
  rw [this]
  have h1 : 2 ^ (k + 1) * a + (2 ^ k * e + i) = i + 2 ^ k * (e + 2 * a) := by
    rw [pow_succ]; ring
  rw [h1, Nat.add_mul_mod_self_left, Nat.mod_eq_of_lt hi]

theorem testBit_digit {k a e i : Nat} (hi : i < 2 ^ k) (he : e ≤ 1) (j : Nat) :
    Nat.testBit (2 ^ (k + 1) * a + (2 ^ k * e + i)) j =
      if j < k then Nat.testBit i j
      else if j = k then decide (e = 1)
      else Nat.testBit a (j - (k + 1)) := by
  have hlow : 2 ^ k * e + i < 2 ^ (k + 1) := by
    have : 2 ^ k * e ≤ 2 ^ k * 1 := Nat.mul_le_mul_left _ he
    rw [pow_succ]
    omega
  rw [Nat.testBit_mul_pow_two_add _ hlow]
  by_cases h1 : j < k + 1
  · rw [if_pos h1, Nat.testBit_mul_pow_two_add _ hi]
    by_cases h2 : j < k
    · rw [if_pos h2, if_pos h2]
    · have hjk : j = k := by omega
      subst hjk
      simp only [if_neg h2, Nat.sub_self, if_pos rfl]
      rcases Nat.le_one_iff_eq_zero_or_eq_one.1 he with h | h <;> subst h <;> simp
  · have h2 : ¬ j < k := by omega
    have h3 : j ≠ k := by omega
    rw [if_neg h1, if_neg h2, if_neg h3]

theorem testBit_digit_a_high {k a j : Nat} (hk : k ≤ 63) (ha : a < 2 ^ (63 - k))
    (hj : 64 ≤ j) : Nat.testBit a (j - (k + 1)) = false := by
  apply Nat.testBit_lt_two_pow
  calc a < 2 ^ (63 - k) := ha
    _ ≤ 2 ^ (j - (k + 1)) := Nat.pow_le_pow_right (by norm_num) (by omega)

theorem testBit_M_sub_one {j : Nat} : Nat.testBit (M - 1) j = decide (j < 64) := by
  unfold M
  exact Nat.testBit_two_pow_sub_one 64 j

theorem digit_and_unot_lap {k a e i : Nat} (hk : k ≤ 63) (hi : i < 2 ^ k)
    (he : e ≤ 1) (ha : a < 2 ^ (63 - k)) :
    (2 ^ (k + 1) * a + (2 ^ k * e + i)) &&& unot (2 ^ (k + 1) - 1) =
      2 ^ (k + 1) * a := by
  apply Nat.eq_of_testBit_eq
  intro j
  rw [Nat.testBit_and]
  unfold unot
  rw [Nat.testBit_xor, testBit_M_sub_one, Nat.testBit_two_pow_sub_one,
    testBit_digit hi he, Nat.testBit_mul_pow_two]
  by_cases h1 : j < k
  · have e1 : j < k + 1 := by omega
    have e2 : j < 64 := by omega
    have e3 : ¬ k + 1 ≤ j := by omega
    simp [h1, e1, e2, e3]
  · by_cases h2 : j = k
    · subst h2
      have e1 : j < j + 1 := by omega
      have e2 : j < 64 := by omega
      have e3 : ¬ j + 1 ≤ j := by omega
      simp [e1, e2, e3]
    · have e1 : ¬ j < k + 1 := by omega
      have e2 : k + 1 ≤ j := by omega
      by_cases h3 : j < 64
      · simp [h1, h2, h3, e1, e2]
      · have e4 := testBit_digit_a_high hk ha (show 64 ≤ j by omega)
        simp [h1, h2, h3, e1, e2, e4]

theorem digit_and_unot_mark {k a e i : Nat} (hk : k ≤ 63) (hi : i < 2 ^ k)
    (he : e ≤ 1) (ha : a < 2 ^ (63 - k)) :
    (2 ^ (k + 1) * a + (2 ^ k * e + i)) &&& unot (2 ^ k) =
      2 ^ (k + 1) * a + (2 ^ k * 0 + i) := by
  apply Nat.eq_of_testBit_eq
  intro j
  rw [Nat.testBit_and]
  unfold unot
  rw [Nat.testBit_xor, testBit_M_sub_one,
    testBit_digit hi he, testBit_digit hi (by norm_num : (0:Nat) ≤ 1)]
  by_cases h1 : j < k
  · have hj : Nat.testBit (2 ^ k) j = false := Nat.testBit_two_pow_of_ne (by omega)
    have e1 : j < 64 := by omega
    simp [h1, hj, e1]
  · by_cases h2 : j = k
    · subst h2
      have e1 : j < 64 := by omega
      simp [Nat.testBit_two_pow_self, e1, h1]
    · have hj : Nat.testBit (2 ^ k) j = false :=
        Nat.testBit_two_pow_of_ne (by omega)
      by_cases h3 : j < 64
      · simp [h1, h2, h3, hj]
      · have e4 := testBit_digit_a_high hk ha (show 64 ≤ j by omega)
        simp [h1, h2, h3, hj, e4]

theorem digit_or_mark {k a e i : Nat} (hk : k ≤ 63) (hi : i < 2 ^ k)
    (he : e ≤ 1) (ha : a < 2 ^ (63 - k)) :
    (2 ^ (k + 1) * a + (2 ^ k * e + i)) ||| 2 ^ k =
      2 ^ (k + 1) * a + (2 ^ k * 1 + i) := by
  apply Nat.eq_of_testBit_eq
  intro j
  rw [Nat.testBit_or, testBit_digit hi he, testBit_digit hi (by norm_num : (1:Nat) ≤ 1)]
  by_cases h1 : j < k
  · have hj : Nat.testBit (2 ^ k) j = false := Nat.testBit_two_pow_of_ne (by omega)
    simp [h1, hj]
  · by_cases h2 : j = k
    · subst h2
      simp [Nat.testBit_two_pow_self, h1]
    · have hj : Nat.testBit (2 ^ k) j = false :=
        Nat.testBit_two_pow_of_ne (by omega)
      simp [h1, h2, hj]

theorem digit_and_mark {k a e i : Nat} (hi : i < 2 ^ k) (he : e ≤ 1) :
    (2 ^ (k + 1) * a + (2 ^ k * e + i)) &&& 2 ^ k = 2 ^ k * e := by
  rw [Nat.and_two_pow]
  have h1 : 2 ^ (k + 1) * a + (2 ^ k * e + i) = i + 2 ^ k * (e + 2 * a) := by
    rw [pow_succ]; ring
  have h2 : Nat.testBit (2 ^ (k + 1) * a + (2 ^ k * e + i)) k = decide (e = 1) := by
    rw [h1, Nat.testBit_to_div_mod]
    have hd : (i + 2 ^ k * (e + 2 * a)) / 2 ^ k = e + 2 * a := by
      rw [Nat.add_mul_div_left _ _ (Nat.pos_pow_of_pos _ (by norm_num)),
        Nat.div_eq_of_lt hi, Nat.zero_add]
    rw [hd]
    rcases Nat.le_one_iff_eq_zero_or_eq_one.1 he with h | h <;> subst h <;>
      simp [Nat.add_mul_mod_self_left, Nat.mul_comm]
  rw [h2]
  rcases Nat.le_one_iff_eq_zero_or_eq_one.1 he with h | h <;> subst h <;> simp

/-! ## `utils.rs`: Backoff

`spin_light` runs `self.step.get().min(SPIN_LIMIT).pow(2)` CPU hint-pauses and
increments the step.  `spin_heavy` runs `self.step.get().pow(2)` pauses when
`step ≤ SPIN_LIMIT` and otherwise yields the OS thread, also incrementing.
Each function returns its observable effect together with the updated state. -/

def SPIN_LIMIT : Nat := 6

/-- `Backoff` from `utils.rs`. -/
structure Backoff where
  step : Nat
deriving DecidableEq

def Backoff.mkNew : Backoff := ⟨0⟩

/-- `Backoff::spin_light`: number of executed `spin_loop` pauses, new state. -/
def Backoff.spin_light (b : Backoff) : Nat × Backoff :=
  ((min b.step SPIN_LIMIT) ^ 2, ⟨b.step + 1⟩)

/-- The observable effect of one `spin_heavy` call. -/
inductive SpinEffect where
  | pauses (n : Nat)
  | yieldThread
deriving DecidableEq

/-- `Backoff::spin_heavy`. -/
def Backoff.spin_heavy (b : Backoff) : SpinEffect × Backoff :=
  if b.step ≤ SPIN_LIMIT then (.pauses (b.step ^ 2), ⟨b.step + 1⟩)
  else (.yieldThread, ⟨b.step + 1⟩)

/-- `Backoff::is_completed`. -/
def Backoff.is_completed (b : Backoff) : Bool := b.step > SPIN_LIMIT

/-! ## `select.rs`: `Operation` and `Selected` -/

/-- `Operation` from `select.rs`: the address of the caller's token. -/
structure Operation where
  val : Nat
deriving DecidableEq

/-- `Operation::hook`: `assert!(val > 2)` then wrap; `none` models the panic. -/
def Operation.hook (addr : Nat) : Option Operation :=
  if addr > 2 then some ⟨addr⟩ else none

/-- `Selected` from `select.rs`. -/
inductive Selected where
  | waiting
  | aborted
  | disconnected
  | operation (op : Operation)
deriving DecidableEq

/-- `impl Into<usize> for Selected`. -/
def Selected.toUsize : Selected → Nat
  | .waiting => 0
  | .aborted => 1
  | .disconnected => 2
  | .operation op => op.val

/-- `impl From<usize> for Selected`. -/
def Selected.fromUsize (val : Nat) : Selected :=
  match val with
  | 0 => .waiting
  | 1 => .aborted
  | 2 => .disconnected
  | oper => .operation ⟨oper⟩

/-! ## `context.rs`: `Context`

Only the `Inner` fields that the verified operations touch are modeled: the
`select` atomic word (holding a `Selected` encoding), the `packet` atomic
pointer (an address, `0` for null) and the thread id. -/

structure Context where
  select : Nat
  packet : Nat
  thread_id : Nat
deriving DecidableEq

/-- `Context::reset`. -/
def Context.reset (cx : Context) : Context :=
  { cx with select := Selected.waiting.toUsize, packet := 0 }

/-- `Context::try_select`: CAS `select` from `Waiting.into()` to `s.into()`;
on failure the already-stored value is returned, decoded. -/
def Context.try_select (cx : Context) (s : Selected) : Context × Except Selected Unit :=
  if cx.select = Selected.waiting.toUsize then
    ({ cx with select := s.toUsize }, Except.ok ())
  else
    (cx, Except.error (Selected.fromUsize cx.select))

/-- `Context::store_packet`. -/
def Context.store_packet (cx : Context) (p : Nat) : Context :=
  { cx with packet := p }

/-- Number of `try_select` calls in `args` (performed left to right on `cx`)
that return `Ok`. -/
def Context.trySelectOkCount : Context → List Selected → Nat
  | _, [] => 0
  | cx, s :: rest =>
    match cx.try_select s with
    | (cx', Except.ok _) => 1 + cx'.trySelectOkCount rest
    | (cx', Except.error _) => cx'.trySelectOkCount rest

/-- If the `select` word is nonzero, no `try_select` in a run ever succeeds. -/
theorem trySelectOkCount_of_ne (args : List Selected) :
    ∀ cx : Context, cx.select ≠ 0 → cx.trySelectOkCount args = 0 := by
  induction args with
  | nil => intro cx h; rfl
  | cons s rest ih =>
    intro cx h
    unfold Context.trySelectOkCount Context.try_select
    simp only [Selected.toUsize]
    rw [if_neg h]
    exact ih cx h

/-- C5 (counterexample): at step `3`, `spin_light` executes `3 ^ 2 = 9`
hint-pauses, not `2 ^ min 3 6 = 8` as the claim states: the source uses
`step.min(SPIN_LIMIT).pow(2)` (squaring), not exponentiation base 2. -/
theorem C5_counterexample :
    ¬ (Backoff.spin_light ⟨3⟩).1 = 2 ^ min 3 SPIN_LIMIT := by decide

/-- C5 (amended): for a `Backoff` at step `s`, `spin_light` executes exactly
`min(s, 6) ^ 2` CPU hint-pauses and increments the step by one; `spin_heavy`
executes `s ^ 2` pauses when `s ≤ 6` and otherwise yields the OS thread, also
incrementing the step by one. -/
theorem C5_backoff_spin (s : Nat) :
    (Backoff.spin_light ⟨s⟩).1 = (min s SPIN_LIMIT) ^ 2 ∧
    (Backoff.spin_light ⟨s⟩).2 = ⟨s + 1⟩ ∧
    (s ≤ SPIN_LIMIT → Backoff.spin_heavy ⟨s⟩ = (.pauses (s ^ 2), ⟨s + 1⟩)) ∧
    (s > SPIN_LIMIT → Backoff.spin_heavy ⟨s⟩ = (.yieldThread, ⟨s + 1⟩)) := by
  refine ⟨rfl, rfl, ?_, ?_⟩
  · intro h
    simp only [Backoff.spin_heavy, SPIN_LIMIT] at h ⊢
    rw [if_pos h]
  · intro h
    simp only [Backoff.spin_heavy, SPIN_LIMIT] at h ⊢
    rw [if_neg (by omega)]

/-- C5 witness: the amended claim evaluated at steps 2 and 7. -/
theorem C5_backoff_spin_witness :
    Backoff.spin_heavy ⟨2⟩ = (.pauses 4, ⟨3⟩) ∧
    Backoff.spin_heavy ⟨7⟩ = (.yieldThread, ⟨8⟩) :=
  ⟨(C5_backoff_spin 2).2.2.1 (by decide), (C5_backoff_spin 7).2.2.2 (by decide)⟩

/-- C7 (counterexample): from a freshly reset context, the sequence of calls
`try_select (Operation 0)`, `try_select Aborted` has TWO successes — the first
stores `Operation(0).into() = 0`, which is again the `Waiting` encoding — so
"at most one try_select succeeds between two resets" fails as stated even
though both arguments differ from `Waiting`. -/
theorem C7_counterexample :
    ¬ Context.trySelectOkCount ⟨0, 0, 0⟩
        [Selected.operation ⟨0⟩, Selected.aborted] ≤ 1 := by decide

/-- C7 (amended): `try_select(s)` on a context whose select word holds the
`Waiting` encoding succeeds and stores `s`'s encoding; on a context holding a
non-`Waiting` word `v` it fails, returns the decoded `v`, and leaves the word
unchanged.  Consequently, of any sequence of `try_select` calls between two
resets whose arguments all have a nonzero encoding (as every value built by
the library does: `Aborted`, `Disconnected`, `Operation(id > 2)`), at most one
succeeds. -/
theorem C7_context_try_select :
    (∀ (cx : Context) (s : Selected), cx.select = Selected.waiting.toUsize →
        s ≠ Selected.waiting →
        cx.try_select s = ({ cx with select := s.toUsize }, Except.ok ())) ∧
    (∀ (cx : Context) (s : Selected), cx.select ≠ Selected.waiting.toUsize →
        cx.try_select s = (cx, Except.error (Selected.fromUsize cx.select))) ∧
    (∀ (cx : Context) (args : List Selected),
        cx.select = Selected.waiting.toUsize →
        (∀ s ∈ args, s.toUsize ≠ 0) → cx.trySelectOkCount args ≤ 1) := by
  refine ⟨?_, ?_, ?_⟩
  · intro cx s h _
    unfold Context.try_select
    rw [if_pos h]
  · intro cx s h
    unfold Context.try_select
    rw [if_neg h]
  · intro cx args h hargs
    cases args with
    | nil => simp [Context.trySelectOkCount]
    | cons s rest =>
      unfold Context.trySelectOkCount Context.try_select
      rw [if_pos h]
      simp only []
      have hs : s.toUsize ≠ 0 := hargs s (by simp)
      rw [trySelectOkCount_of_ne rest _ hs]

/-- C7 witness: the amended at-most-one property at a concrete context and
argument list. -/
theorem C7_context_try_select_witness :
    Context.trySelectOkCount ⟨0, 0, 0⟩ [Selected.aborted, Selected.disconnected] ≤ 1 :=
  C7_context_try_select.2.2 ⟨0, 0, 0⟩ [Selected.aborted, Selected.disconnected]
    rfl (by decide)

/-- C8: the `Selected`/`usize` conversion is the identity on `Waiting`,
`Aborted`, `Disconnected` and on `Operation(id)` for `id > 2` (the encodings
being 0, 1, 2, id respectively), and `Operation::hook` only produces ids
greater than 2, so every library-constructed `Selected` round-trips. -/
theorem C8_selected_roundtrip :
    Selected.fromUsize Selected.waiting.toUsize = Selected.waiting ∧
    Selected.fromUsize Selected.aborted.toUsize = Selected.aborted ∧
    Selected.fromUsize Selected.disconnected.toUsize = Selected.disconnected ∧
    (∀ n : Nat, 2 < n →
        Selected.fromUsize (Selected.operation ⟨n⟩).toUsize = Selected.operation ⟨n⟩) ∧
    (∀ (addr : Nat) (op : Operation), Operation.hook addr = some op →
        2 < op.val ∧
        Selected.fromUsize (Selected.operation op).toUsize = Selected.operation op) ∧
    Selected.waiting.toUsize = 0 ∧ Selected.aborted.toUsize = 1 ∧
    Selected.disconnected.toUsize = 2 ∧
    (∀ n : Nat, (Selected.operation ⟨n⟩).toUsize = n) := by
  have hop : ∀ n : Nat, 2 < n →
      Selected.fromUsize (Selected.operation ⟨n⟩).toUsize = Selected.operation ⟨n⟩ := by
    intro n hn
    obtain ⟨m, rfl⟩ : ∃ m, n = m + 3 := ⟨n - 3, by omega⟩
    rfl
  refine ⟨rfl, rfl, rfl, hop, ?_, rfl, rfl, rfl, fun _ => rfl⟩
  intro addr op h
  unfold Operation.hook at h
  by_cases ha : addr > 2
  · rw [if_pos ha] at h
    cases h
    exact ⟨ha, hop addr ha⟩
  · rw [if_neg ha] at h
    cases h

/-- C8 witness: the round-trip at a concrete id produced by `hook`. -/
theorem C8_selected_roundtrip_witness :
    2 < (100 : Nat) ∧
    Selected.fromUsize (Selected.operation ⟨100⟩).toUsize = Selected.operation ⟨100⟩ :=
  C8_selected_roundtrip.2.2.2.2.1 100 ⟨100⟩ rfl

/-! ## `waker.rs`: `Entry`, `Waker`

An `Entry` records a blocked operation; its `Context` is shared with the
blocked thread, modeled here as an id into an external context store. -/

structure Entry where
  oper : Operation
  packet : Nat
  cx : Nat
deriving DecidableEq

structure Waker where
  selectors : List Entry
  observers : List Entry
deriving DecidableEq

/-- The shared contexts, indexed by id (models the shared `Arc<Inner>`s). -/
def CtxStore : Type := Nat → Context

def CtxStore.update (σ : CtxStore) (n : Nat) (cx : Context) : CtxStore :=
  fun j => if j = n then cx else σ j

/-- `Waker::register_with_packet`: append an entry to `selectors`. -/
def Waker.register_with_packet (w : Waker) (oper : Operation) (packet : Nat)
    (cxId : Nat) : Waker :=
  { w with selectors := w.selectors ++ [⟨oper, packet, cxId⟩] }

/-- `Waker::register`. -/
def Waker.register (w : Waker) (oper : Operation) (cxId : Nat) : Waker :=
  w.register_with_packet oper 0 cxId

/-- The find-and-remove step of `Waker::unregister`: remove the first entry
with the given operation id, returning it. -/
def removeFirst (oper : Operation) : List Entry → Option Entry × List Entry
  | [] => (none, [])
  | e :: rest =>
    if e.oper = oper then (some e, rest)
    else
      let r := removeFirst oper rest
      (r.1, e :: r.2)

/-- `Waker::unregister`. -/
def Waker.unregister (w : Waker) (oper : Operation) : Option Entry × Waker :=
  let r := removeFirst oper w.selectors
  (r.1, { w with selectors := r.2 })

/-- The scanning loop of `Waker::try_select`: find the first selector whose
thread id differs from the caller's and whose context CAS succeeds; publish
the packet to it, unpark it (no observable effect here) and remove it. -/
def wakerScan (tid : Nat) (σ : CtxStore) :
    List Entry → Option Entry × List Entry × CtxStore
  | [] => (none, [], σ)
  | e :: rest =>
    if (σ e.cx).thread_id ≠ tid then
      match (σ e.cx).try_select (.operation e.oper) with
      | (cx', Except.ok _) =>
        (some e, rest, σ.update e.cx (cx'.store_packet e.packet))
      | (_, Except.error _) =>
        let r := wakerScan tid σ rest
        (r.1, e :: r.2.1, r.2.2)
    else
      let r := wakerScan tid σ rest
      (r.1, e :: r.2.1, r.2.2)

/-- `Waker::try_select`. -/
def Waker.try_select (w : Waker) (tid : Nat) (σ : CtxStore) :
    Option Entry × Waker × CtxStore :=
  let r := wakerScan tid σ w.selectors
  (r.1, { w with selectors := r.2.1 }, r.2.2)

/-- The loop of `Waker::notify`: drain observers, attempting
`try_select(Operation(oper))` on each and unparking on success. -/
def notifyLoop (σ : CtxStore) : List Entry → CtxStore
  | [] => σ
  | e :: rest =>
    match (σ e.cx).try_select (.operation e.oper) with
    | (cx', Except.ok _) => notifyLoop (σ.update e.cx cx') rest
    | (_, Except.error _) => notifyLoop σ rest

/-- `Waker::notify`. -/
def Waker.notify (w : Waker) (σ : CtxStore) : Waker × CtxStore :=
  ({ w with observers := [] }, notifyLoop σ w.observers)

/-- The loop of `Waker::disconnect`: attempt `try_select(Disconnected)` on
every selector entry, unparking the ones whose CAS succeeds; entries are not
removed. -/
def disconnectLoop (σ : CtxStore) : List Entry → CtxStore
  | [] => σ
  | e :: rest =>
    match (σ e.cx).try_select .disconnected with
    | (cx', Except.ok _) => disconnectLoop (σ.update e.cx cx') rest
    | (_, Except.error _) => disconnectLoop σ rest

/-- `Waker::disconnect`: the selector loop followed by `self.notify()`. -/
def Waker.disconnect (w : Waker) (σ : CtxStore) : Waker × CtxStore :=
  let σ1 := disconnectLoop σ w.selectors
  Waker.notify w σ1

/-- `removeFirst` either finds nothing and leaves the list intact, or removes
exactly the first entry carrying the operation id. -/
theorem removeFirst_spec (oper : Operation) (l : List Entry) :
    (removeFirst oper l = (none, l) ∧ ∀ e ∈ l, e.oper ≠ oper) ∨
    (∃ e l1 l2, removeFirst oper l = (some e, l1 ++ l2) ∧
      l = l1 ++ e :: l2 ∧ e.oper = oper) := by
  induction l with
  | nil => left; exact ⟨rfl, by simp⟩
  | cons e rest ih =>
    by_cases he : e.oper = oper
    · right
      exact ⟨e, [], rest, by simp [removeFirst, he], by simp, he⟩
    · rcases ih with ⟨h1, h2⟩ | ⟨e', l1, l2, h1, h2, h3⟩
      · left
        constructor
        · simp [removeFirst, he, h1]
        · intro x hx
          rcases List.mem_cons.1 hx with h | h
          · subst h; exact he
          · exact h2 x h
      · right
        refine ⟨e', e :: l1, l2, ?_, by simp [h2], h3⟩
        simp [removeFirst, he, h1]

/-- `wakerScan` either selects nothing and leaves the list intact, or removes
exactly the selected entry. -/
theorem wakerScan_spec (tid : Nat) (σ : CtxStore) (l : List Entry) :
    ((wakerScan tid σ l).1 = none ∧ (wakerScan tid σ l).2.1 = l) ∨
    (∃ e l1 l2, (wakerScan tid σ l).1 = some e ∧
      l = l1 ++ e :: l2 ∧ (wakerScan tid σ l).2.1 = l1 ++ l2) := by
  induction l generalizing σ with
  | nil => left; exact ⟨rfl, rfl⟩
  | cons e rest ih =>
    by_cases ht : (σ e.cx).thread_id ≠ tid
    · by_cases hs : (σ e.cx).select = Selected.waiting.toUsize
      · right
        refine ⟨e, [], rest, ?_, by simp, ?_⟩
        · simp [wakerScan, ht, Context.try_select, hs]
        · simp [wakerScan, ht, Context.try_select, hs]
      · have hrec := ih σ
        rcases hrec with ⟨h1, h2⟩ | ⟨e', l1, l2, h1, h2, h3⟩
        · left
          constructor
          · simp [wakerScan, ht, Context.try_select, hs, h1]
          · simp [wakerScan, ht, Context.try_select, hs, h2]
        · right
          refine ⟨e', e :: l1, l2, ?_, by simp [h2], ?_⟩
          · simp [wakerScan, ht, Context.try_select, hs, h1]
          · simp [wakerScan, ht, Context.try_select, hs, h3]
    · have hrec := ih σ
      rcases hrec with ⟨h1, h2⟩ | ⟨e', l1, l2, h1, h2, h3⟩
      · left
        constructor
        · simp [wakerScan, ht, h1]
        · simp [wakerScan, ht, h2]
      · right
        refine ⟨e', e :: l1, l2, ?_, by simp [h2], ?_⟩
        · simp [wakerScan, ht, h1]
        · simp [wakerScan, ht, h3]

/-- `disconnectLoop` never makes a context word `Waiting` again. -/
theorem disconnectLoop_pres (l : List Entry) :
    ∀ (σ : CtxStore) (n : Nat), (σ n).select ≠ 0 →
      ((disconnectLoop σ l) n).select ≠ 0 := by
  induction l with
  | nil => intro σ n h; exact h
  | cons e rest ih =>
    intro σ n h
    unfold disconnectLoop Context.try_select
    by_cases hs : (σ e.cx).select = Selected.waiting.toUsize
    · rw [if_pos hs]
      simp only []
      apply ih
      unfold CtxStore.update
      by_cases hn : n = e.cx
      · subst hn
        rw [if_pos rfl]
        simp [Selected.toUsize]
      · rw [if_neg hn]; exact h
    · rw [if_neg hs]
      simp only []
      exact ih σ n h

/-- After `disconnectLoop`, every context referenced by the processed list is
no longer `Waiting` (it was either already selected or just disconnected). -/
theorem disconnectLoop_selects (l : List Entry) :
    ∀ (σ : CtxStore) (e : Entry), e ∈ l →
      ((disconnectLoop σ l) e.cx).select ≠ 0 := by
  induction l with
  | nil => intro σ e h; cases h
  | cons e0 rest ih =>
    intro σ e h
    unfold disconnectLoop Context.try_select
    by_cases hs : (σ e0.cx).select = Selected.waiting.toUsize
    · rw [if_pos hs]
      simp only []
      rcases List.mem_cons.1 h with h | h
      · subst h
        apply disconnectLoop_pres
        unfold CtxStore.update
        rw [if_pos rfl]
        simp [Selected.toUsize]
      · exact ih _ e h
    · rw [if_neg hs]
      simp only []
      rcases List.mem_cons.1 h with h | h
      · subst h
        exact disconnectLoop_pres rest σ e.cx hs
      · exact ih σ e h

/-- `notifyLoop` never makes a context word `Waiting` again (a successful CAS
starts from `Waiting`, so it can only touch contexts whose word is zero). -/
theorem notifyLoop_pres (l : List Entry) :
    ∀ (σ : CtxStore) (n : Nat), (σ n).select ≠ 0 →
      ((notifyLoop σ l) n).select ≠ 0 := by
  induction l with
  | nil => intro σ n h; exact h
  | cons e rest ih =>
    intro σ n h
    unfold notifyLoop Context.try_select
    by_cases hs : (σ e.cx).select = Selected.waiting.toUsize
    · rw [if_pos hs]
      simp only []
      apply ih
      unfold CtxStore.update
      by_cases hn : n = e.cx
      · subst hn
        exfalso
        exact h hs
      · rw [if_neg hn]; exact h
    · rw [if_neg hs]
      simp only []
      exact ih σ n h

/-- C9: `Waker::disconnect` attempts `try_select(Disconnected)` on every
selector entry's context (afterwards none of them is still `Waiting`) but
removes no selector entry: the selectors list after `disconnect` (and after
`notify`) is exactly the sequence it was before; `register` only appends; and
`unregister` / `try_select` are the only operations that remove a selector
entry, each removing exactly the one matched entry. -/
theorem C9_waker_disconnect_frame (w : Waker) (σ : CtxStore) :
    ((w.disconnect σ).1.selectors = w.selectors) ∧
    (∀ e ∈ w.selectors, ((w.disconnect σ).2 e.cx).select ≠ Selected.waiting.toUsize) ∧
    ((w.notify σ).1.selectors = w.selectors) ∧
    (∀ oper packet cxId, (w.register_with_packet oper packet cxId).selectors =
      w.selectors ++ [⟨oper, packet, cxId⟩]) ∧
    (∀ oper, ((w.unregister oper).1 = none ∧
        (w.unregister oper).2.selectors = w.selectors) ∨
      (∃ e l1 l2, (w.unregister oper).1 = some e ∧
        w.selectors = l1 ++ e :: l2 ∧ (w.unregister oper).2.selectors = l1 ++ l2)) ∧
    (∀ tid, ((w.try_select tid σ).1 = none ∧
        (w.try_select tid σ).2.1.selectors = w.selectors) ∨
      (∃ e l1 l2, (w.try_select tid σ).1 = some e ∧
        w.selectors = l1 ++ e :: l2 ∧
        (w.try_select tid σ).2.1.selectors = l1 ++ l2)) := by
  refine ⟨rfl, ?_, rfl, fun _ _ _ => rfl, ?_, ?_⟩
  · intro e he
    unfold Waker.disconnect Waker.notify
    simp only []
    exact notifyLoop_pres _ _ _ (disconnectLoop_selects _ _ _ he)
  · intro oper
    rcases removeFirst_spec oper w.selectors with ⟨h1, _⟩ | ⟨e, l1, l2, h1, h2, _⟩
    · left
      unfold Waker.unregister
      rw [h1]
      exact ⟨rfl, rfl⟩
    · right
      refine ⟨e, l1, l2, ?_, h2, ?_⟩ <;>
        (unfold Waker.unregister; rw [h1])
  · intro tid
    rcases wakerScan_spec tid σ w.selectors with ⟨h1, h2⟩ | ⟨e, l1, l2, h1, h2, h3⟩
    · left
      constructor <;> simp only [Waker.try_select, h1, h2]
    · right
      refine ⟨e, l1, l2, ?_, h2, ?_⟩ <;>
        simp only [Waker.try_select, h1, h3]

/-- C9 witness: the frame property evaluated on a waker with one parked
selector entry. -/
theorem C9_waker_disconnect_frame_witness :
    ((Waker.disconnect ⟨[⟨⟨10⟩, 0, 0⟩], []⟩ (fun _ => ⟨0, 0, 5⟩)).2 0).select ≠
      Selected.waiting.toUsize :=
  (C9_waker_disconnect_frame ⟨[⟨⟨10⟩, 0, 0⟩], []⟩ (fun _ => ⟨0, 0, 5⟩)).2.1
    ⟨⟨10⟩, 0, 0⟩ (by simp)

/-! ## `array.rs`: the bounded channel

The two `SyncWaker` fields are elided from the state: under the sequential
semantics no thread ever parks, both registries stay empty, and the
`notify()` calls in `write`/`read` are no-ops (`Waker` itself is modeled in
the section above).  Wrapping `usize` arithmetic carries an explicit `% M`;
the plain `+ 1` sites of the source are kept as plain `Nat` addition (they
cannot overflow in any reachable state). -/


/-- `TrySendError` from `errors.rs`. -/
inductive TrySendError (α : Type) where
  | full (m : α)
  | disconnected (m : α)
deriving DecidableEq

/-- `TryRecvError` from `errors.rs`. -/
inductive TryRecvError where
  | empty
  | disconnected
deriving DecidableEq

/-- `SendTimeoutError` from `errors.rs`. -/
inductive SendTimeoutError (α : Type) where
  | timeout (m : α)
  | disconnected (m : α)
deriving DecidableEq

/-- `RecvTimeoutError` from `errors.rs`. -/
inductive RecvTimeoutError where
  | timeout
  | disconnected
deriving DecidableEq

namespace ArrayCh

/-- `array.rs` `Channel<T>`: head, tail, slot buffer and the constants. -/
structure Chan (α : Type) where
  head : Nat
  tail : Nat
  buffer : List (Nat × Option α)
  cap : Nat
  one_lap : Nat
  mark_bit : Nat
deriving DecidableEq

/-- `Channel::with_capacity`; `none` models the `assert!(cap > 0)` panic.
Slot `i` starts with stamp `i` and no message. -/
def with_capacity (α : Type) (cap : Nat) : Option (Chan α) :=
  if cap > 0 then
    some { head := 0
           tail := 0
           buffer := (List.range cap).map (fun i => (i, none))
           cap := cap
           one_lap := nextPow2 (cap + 1) * 2
           mark_bit := nextPow2 (cap + 1) }
  else none

/-- The slot at `index` (`buffer.get_unchecked(index)`). -/
def Chan.slot (c : Chan α) (i : Nat) : Nat × Option α := c.buffer.getD i (0, none)

/-- Outcome of one pass of a reservation loop.  In the sequential semantics
the state cannot change between iterations, so a pass that ends in a
back-off spin would retry forever; callers surface `.spin` as `none`. -/
inductive StartRes where
  | disconnected
  | reserved (index stamp : Nat)
  | notReady
  | spin
deriving DecidableEq

/-- One pass of the `start_send` loop. -/
def start_send (c : Chan α) : StartRes × Chan α :=
  let tail := c.tail
  if tail &&& c.mark_bit ≠ 0 then
    (.disconnected, c)     -- token.array.slot = null
  else
    let index := tail &&& (c.mark_bit - 1)
    let lap := tail &&& unot (c.one_lap - 1)
    let stamp := (c.slot index).1
    if tail = stamp then
      let new_tail := if index + 1 < c.cap then tail + 1
                      else (lap + c.one_lap) % M
      (.reserved index (tail + 1), { c with tail := new_tail })
    else if (stamp + c.one_lap) % M = tail + 1 then
      if (c.head + c.one_lap) % M = tail then (.notReady, c)   -- channel full
      else (.spin, c)
    else (.spin, c)

/-- `Channel::write` after a successful reservation: store the message and
release the prepared stamp (`receivers.notify()` is a no-op here). -/
def write (c : Chan α) (index stamp : Nat) (m : α) : Chan α :=
  { c with buffer := c.buffer.set index (stamp, some m) }

/-- `Channel::try_send`; the error value carries the message back.  `none`
models an execution that spins forever. -/
def try_send (c : Chan α) (m : α) : Option (Chan α × Option (TrySendError α)) :=
  match start_send c with
  | (.reserved index stamp, c') => some (write c' index stamp m, none)
  | (.disconnected, c') => some (c', some (.disconnected m))
  | (.notReady, c') => some (c', some (.full m))
  | (.spin, _) => none

/-- One pass of the `start_recv` loop. -/
def start_recv (c : Chan α) : StartRes × Chan α :=
  let head := c.head
  let index := head &&& (c.mark_bit - 1)
  let lap := head &&& unot (c.one_lap - 1)
  let stamp := (c.slot index).1
  if head + 1 = stamp then
    let new_head := if index + 1 < c.cap then head + 1
                    else (lap + c.one_lap) % M
    (.reserved index ((head + c.one_lap) % M), { c with head := new_head })
  else if stamp = head then
    let tail := c.tail
    if tail &&& unot c.mark_bit = head then
      if tail &&& c.mark_bit ≠ 0 then (.disconnected, c) else (.notReady, c)
    else (.spin, c)
  else (.spin, c)

/-- `Channel::read`: copy the message out (the slot keeps its bits) and
release the reset stamp (`senders.notify()` is a no-op here).  Reading a slot
that holds no message would be undefined behaviour; it yields `none`. -/
def read (c : Chan α) (index stamp : Nat) : Option (Chan α × α) :=
  match (c.slot index).2 with
  | none => none
  | some m => some ({ c with buffer := c.buffer.set index (stamp, some m) }, m)

/-- `Channel::try_recv`. -/
def try_recv (c : Chan α) : Option (Chan α × Except TryRecvError α) :=
  match start_recv c with
  | (.reserved index stamp, c') =>
    match read c' index stamp with
    | some (c'', m) => some (c'', Except.ok m)
    | none => none
  | (.disconnected, c') => some (c', Except.error .disconnected)
  | (.notReady, c') => some (c', Except.error .empty)
  | (.spin, _) => none

/-- `Channel::send` under the sequential semantics.  A failed reservation
leaves the state unchanged, so further back-off attempts fail identically.
With a deadline, the registered context eventually self-selects `Aborted`
(no other thread exists to select it), the entry is unregistered, and the
deadline check returns `Timeout(msg)`; without a deadline the thread parks
forever (`none`). -/
def send (c : Chan α) (m : α) (hasDeadline : Bool) :
    Option (Chan α × Option (SendTimeoutError α)) :=
  match start_send c with
  | (.reserved index stamp, c') => some (write c' index stamp m, none)
  | (.disconnected, c') => some (c', some (.disconnected m))
  | (.notReady, c') =>
    if hasDeadline then some (c', some (.timeout m)) else none
  | (.spin, _) => none

/-- `Channel::recv` under the sequential semantics (cf. `send`). -/
def recv (c : Chan α) (hasDeadline : Bool) :
    Option (Chan α × Except RecvTimeoutError α) :=
  match start_recv c with
  | (.reserved index stamp, c') =>
    match read c' index stamp with
    | some (c'', m) => some (c'', Except.ok m)
    | none => none
  | (.disconnected, c') => some (c', Except.error .disconnected)
  | (.notReady, c') =>
    if hasDeadline then some (c', Except.error .timeout) else none
  | (.spin, _) => none

/-- `Channel::len`: the double tail/head load is consistent at once under the
sequential semantics. -/
def len (c : Chan α) : Nat :=
  let tail := c.tail
  let head := c.head
  let hix := head &&& (c.mark_bit - 1)
  let tix := tail &&& (c.mark_bit - 1)
  if hix < tix then tix - hix
  else if hix > tix then c.cap - hix + tix
  else if tail &&& unot c.mark_bit = head then 0
  else c.cap

/-- `Channel::capacity`. -/
def capacity (c : Chan α) : Option Nat := some c.cap

/-- `Channel::is_disconnected`. -/
def is_disconnected (c : Chan α) : Bool := c.tail &&& c.mark_bit != 0

/-- `Channel::is_empty`. -/
def is_empty (c : Chan α) : Bool := c.tail &&& unot c.mark_bit == c.head

/-- `Channel::is_full`. -/
def is_full (c : Chan α) : Bool :=
  (c.head + c.one_lap) % M == c.tail &&& unot c.mark_bit

/-- `Channel::disconnect`: `fetch_or(mark_bit)` on the tail; returns whether
this call performed the transition (the wakers' `disconnect()` is a no-op on
the empty registries). -/
def disconnect (c : Chan α) : Chan α × Bool :=
  let tail := c.tail
  ({ c with tail := tail ||| c.mark_bit }, tail &&& c.mark_bit == 0)

end ArrayCh

namespace ArrayCh

/-! ### The sequential invariant

A reachable state is described by ghost counters `S` (successfully reserved
sends), `R` (successfully reserved receives), the list `msgs` of all messages
sent so far, and the disconnect flag `d`. -/

/-- How many of the first `X` ring positions land on slot `i`
(positions `p < X` with `p % cap = i`). -/
def numTo (cap X i : Nat) : Nat := X / cap + if i < X % cap then 1 else 0

/-- The `{lap, mark: 0, index}` encoding of the unbounded position `p` as a
64-bit word, for `mark_bit = 2 ^ k`: the lap wraps modulo `2 ^ (63 - k)`. -/
def enc (k cap p : Nat) : Nat :=
  2 ^ (k + 1) * (p / cap % 2 ^ (63 - k)) + p % cap

theorem numTo_self (cap X : Nat) : numTo cap X (X % cap) = X / cap := by
  unfold numTo
  simp

theorem numTo_succ {cap i : Nat} (hcap : 0 < cap) (X : Nat) (hi : i < cap) :
    numTo cap (X + 1) i =
      if i = X % cap then numTo cap X i + 1 else numTo cap X i := by
  have hd := Nat.div_add_mod X cap
  have hr : X % cap < cap := Nat.mod_lt X hcap
  have hms : cap * (X / cap + 1) = cap * (X / cap) + cap := by ring
  rcases Nat.lt_or_ge (X % cap + 1) cap with hc | hc
  · have e1 : X + 1 = (X % cap + 1) + cap * (X / cap) := by omega
    have h2 : (X + 1) / cap = X / cap := by
      rw [e1, Nat.add_mul_div_left _ _ hcap, Nat.div_eq_of_lt hc]
      omega
    have h3 : (X + 1) % cap = X % cap + 1 := by
      rw [e1, Nat.add_mul_mod_self_left, Nat.mod_eq_of_lt hc]
    unfold numTo
    rw [h2, h3]
    split_ifs <;> omega
  · have e1 : X + 1 = 0 + cap * (X / cap + 1) := by omega
    have h2 : (X + 1) / cap = X / cap + 1 := by
      rw [e1, Nat.add_mul_div_left _ _ hcap, Nat.zero_div]
      omega
    have h3 : (X + 1) % cap = 0 := by
      rw [e1, Nat.add_mul_mod_self_left, Nat.zero_mod]
    unfold numTo
    rw [h2, h3]
    split_ifs <;> omega

/-- Inside a window of fewer than `cap` outstanding positions, the write
count of the slot under position `S` equals `S`'s lap. -/
theorem numTo_window {cap R S : Nat} (hcap : 0 < cap) (hRS : R ≤ S)
    (hlt : S < R + cap) : numTo cap R (S % cap) = S / cap := by
  have hdR := Nat.div_add_mod R cap
  have hdS := Nat.div_add_mod S cap
  have hrR : R % cap < cap := Nat.mod_lt R hcap
  have hrS : S % cap < cap := Nat.mod_lt S hcap
  have hq1 : R / cap ≤ S / cap := Nat.div_le_div_right hRS
  have hq2 : S / cap ≤ R / cap + 1 := by
    have h : S / cap ≤ (R + cap) / cap := Nat.div_le_div_right (Nat.le_of_lt hlt)
    rw [Nat.add_div_right _ hcap] at h
    exact h
  have hms : cap * (R / cap + 1) = cap * (R / cap) + cap := by ring
  have hcase : S / cap = R / cap ∨ S / cap = R / cap + 1 := by omega
  unfold numTo
  rcases hcase with h | h <;> rw [h] at hdS ⊢ <;> split_ifs <;> omega

theorem mod_succ_ne {x N : Nat} (hN : 2 ≤ N) : (x + 1) % N ≠ x % N := by
  intro h
  rw [← Nat.mod_add_mod] at h
  rcases Nat.lt_or_ge (x % N + 1) N with hc | hc
  · rw [Nat.mod_eq_of_lt hc] at h
    omega
  · have hx : x % N < N := Nat.mod_lt x (by omega)
    have he : x % N + 1 = N := by omega
    rw [he, Nat.mod_self] at h
    omega

/-- The invariant tying a channel state to the ghost counters.  `k` is the
exponent of `mark_bit`. -/
structure Inv (k : Nat) (c : Chan α) (S R : Nat) (msgs : List α) (d : Bool) :
    Prop where
  cap_pos : 0 < c.cap
  cap_lt : c.cap < 2 ^ k
  k_le : k ≤ 61
  mark_eq : c.mark_bit = 2 ^ k
  lap_eq : c.one_lap = 2 ^ (k + 1)
  hRS : R ≤ S
  hSR : S ≤ R + c.cap
  len_msgs : msgs.length = S
  head_eq : c.head = enc k c.cap R
  tail_eq : c.tail = enc k c.cap S + (if d then 2 ^ k else 0)
  buf_len : c.buffer.length = c.cap
  slots : ∀ i, i < c.cap →
    (c.slot i).1 = 2 ^ (k + 1) * (numTo c.cap R i % 2 ^ (63 - k)) + i +
        (if numTo c.cap R i * c.cap + i < S then 1 else 0) ∧
    (numTo c.cap R i * c.cap + i < S →
      (c.slot i).2 = msgs[numTo c.cap R i * c.cap + i]?)

/-- The fresh channel produced by `with_capacity` satisfies the invariant
with all ghost counters zero. -/
theorem with_capacity_inv {α : Type} {cap : Nat} (hcap : 0 < cap)
    (hbig : cap ≤ 2 ^ 60) {c : Chan α} (h : with_capacity α cap = some c) :
    Inv (Nat.clog 2 (cap + 1)) c 0 0 [] false := by
  unfold with_capacity at h
  rw [if_pos hcap] at h
  cases h
  have hck : cap < 2 ^ Nat.clog 2 (cap + 1) := by
    have := nextPow2_ge (cap + 1)
    unfold nextPow2 at this
    omega
  have hk61 : Nat.clog 2 (cap + 1) ≤ 61 := by
    have h1 : cap + 1 ≤ 2 ^ 61 := by
      have : (2:Nat) ^ 60 < 2 ^ 61 := by norm_num
      omega
    exact (Nat.le_pow_iff_clog_le one_lt_two).1 h1
  refine ⟨hcap, hck, hk61, rfl, by simp [nextPow2]; ring, le_refl 0, by omega,
    rfl, by simp [enc], by simp [enc], by simp, ?_⟩
  intro i hi
  have hslot : (Chan.slot
      { head := 0, tail := 0,
        buffer := (List.range cap).map (fun j => (j, (none : Option α))),
        cap := cap, one_lap := nextPow2 (cap + 1) * 2,
        mark_bit := nextPow2 (cap + 1) } i) = (i, (none : Option α)) := by
    unfold Chan.slot
    rw [List.getD_eq_getElem?_getD]
    rw [List.getElem?_map]
    simp [List.getElem?_range hi]
  rw [hslot]
  constructor
  · have h0 : numTo cap 0 i = 0 := by unfold numTo; simp
    rw [h0]
    simp
  · intro hlt
    omega

theorem succ_div_mod_lt {cap X : Nat} (hcap : 0 < cap) (hlt : X % cap + 1 < cap) :
    (X + 1) / cap = X / cap ∧ (X + 1) % cap = X % cap + 1 := by
  have hd := Nat.div_add_mod X cap
  have e1 : X + 1 = (X % cap + 1) + cap * (X / cap) := by omega
  constructor
  · rw [e1, Nat.add_mul_div_left _ _ hcap, Nat.div_eq_of_lt hlt]
    omega
  · rw [e1, Nat.add_mul_mod_self_left, Nat.mod_eq_of_lt hlt]

theorem succ_div_mod_eq {cap X : Nat} (hcap : 0 < cap) (heq : X % cap + 1 = cap) :
    (X + 1) / cap = X / cap + 1 ∧ (X + 1) % cap = 0 := by
  have hd := Nat.div_add_mod X cap
  have e1 : X + 1 = 0 + cap * (X / cap + 1) := by
    have hms : cap * (X / cap + 1) = cap * (X / cap) + cap := by ring
    omega
  constructor
  · rw [e1, Nat.add_mul_div_left _ _ hcap, Nat.zero_div]
    omega
  · rw [e1, Nat.add_mul_mod_self_left, Nat.zero_mod]

theorem Inv.tail_digit {α : Type} {k S R : Nat} {msgs : List α} {d : Bool}
    {c : Chan α} (h : Inv k c S R msgs d) :
    c.tail = 2 ^ (k + 1) * (S / c.cap % 2 ^ (63 - k)) +
      (2 ^ k * (if d then 1 else 0) + S % c.cap) := by
  rw [h.tail_eq]
  unfold enc
  cases d <;> simp <;> ring

theorem Inv.head_digit {α : Type} {k S R : Nat} {msgs : List α} {d : Bool}
    {c : Chan α} (h : Inv k c S R msgs d) :
    c.head = 2 ^ (k + 1) * (R / c.cap % 2 ^ (63 - k)) +
      (2 ^ k * 0 + R % c.cap) := by
  rw [h.head_eq]
  unfold enc
  ring

theorem Inv.k63 {α : Type} {k S R : Nat} {msgs : List α} {d : Bool}
    {c : Chan α} (h : Inv k c S R msgs d) : k ≤ 63 := by
  have := h.k_le
  omega

theorem Inv.N_pos {α : Type} {k S R : Nat} {msgs : List α} {d : Bool}
    {c : Chan α} (h : Inv k c S R msgs d) : 0 < 2 ^ (63 - k) :=
  Nat.pos_pow_of_pos _ (by norm_num)

theorem Inv.N_ge_two {α : Type} {k S R : Nat} {msgs : List α} {d : Bool}
    {c : Chan α} (h : Inv k c S R msgs d) : 2 ≤ 2 ^ (63 - k) := by
  have hk := h.k_le
  calc (2:Nat) = 2 ^ 1 := by norm_num
    _ ≤ 2 ^ (63 - k) := Nat.pow_le_pow_right (by norm_num) (by omega)

theorem Inv.iS_lt {α : Type} {k S R : Nat} {msgs : List α} {d : Bool}
    {c : Chan α} (h : Inv k c S R msgs d) (X : Nat) : X % c.cap < 2 ^ k :=
  lt_trans (Nat.mod_lt X h.cap_pos) h.cap_lt

theorem Inv.aS_lt {α : Type} {k S R : Nat} {msgs : List α} {d : Bool}
    {c : Chan α} (h : Inv k c S R msgs d) (X : Nat) :
    X / c.cap % 2 ^ (63 - k) < 2 ^ (63 - k) :=
  Nat.mod_lt _ h.N_pos

/-- In a non-disconnected, non-full reachable state, one `start_send` pass
reserves the slot under the tail and advances the tail to position `S + 1`. -/
theorem start_send_ok {α : Type} {k S R : Nat} {msgs : List α} {c : Chan α}
    (h : Inv k c S R msgs false) (hS : S < R + c.cap) :
    start_send c = (.reserved (S % c.cap) (c.tail + 1),
      { c with tail := enc k c.cap (S + 1) }) := by
  have hk63 := h.k63
  have hiS : S % c.cap < 2 ^ k := h.iS_lt S
  have haS : S / c.cap % 2 ^ (63 - k) < 2 ^ (63 - k) := h.aS_lt S
  have htail : c.tail = 2 ^ (k + 1) * (S / c.cap % 2 ^ (63 - k)) +
      (2 ^ k * 0 + S % c.cap) := by
    rw [h.tail_eq]
    unfold enc
    norm_num
  have hmark0 : c.tail &&& c.mark_bit = 0 := by
    rw [h.mark_eq, htail, digit_and_mark hiS (by norm_num)]
    ring
  have hindex : c.tail &&& (c.mark_bit - 1) = S % c.cap := by
    rw [h.mark_eq, htail]
    exact digit_and_lo hiS (by norm_num)
  have hlap : c.tail &&& unot (c.one_lap - 1) =
      2 ^ (k + 1) * (S / c.cap % 2 ^ (63 - k)) := by
    rw [h.lap_eq, htail]
    exact digit_and_unot_lap hk63 hiS (by norm_num) haS
  have hw := numTo_window h.cap_pos h.hRS hS
  have hnxt : numTo c.cap R (S % c.cap) * c.cap + S % c.cap = S := by
    rw [hw]
    have hcomm : S / c.cap * c.cap = c.cap * (S / c.cap) := Nat.mul_comm _ _
    have := Nat.div_add_mod S c.cap
    omega
  have hsl := (h.slots (S % c.cap) (Nat.mod_lt S h.cap_pos)).1
  rw [hnxt, hw, if_neg (lt_irrefl S)] at hsl
  have hts : c.tail = (c.slot (S % c.cap)).1 := by
    rw [hsl, htail]
    ring
  have hnt : (if S % c.cap + 1 < c.cap then c.tail + 1
      else (2 ^ (k + 1) * (S / c.cap % 2 ^ (63 - k)) + c.one_lap) % M) =
      enc k c.cap (S + 1) := by
    by_cases hcase : S % c.cap + 1 < c.cap
    · rw [if_pos hcase]
      obtain ⟨hdiv, hmod⟩ := succ_div_mod_lt h.cap_pos hcase
      unfold enc
      rw [hdiv, hmod, htail]
      ring
    · rw [if_neg hcase]
      have hcapeq : S % c.cap + 1 = c.cap := by
        have := Nat.mod_lt S h.cap_pos
        omega
      obtain ⟨hdiv, hmod⟩ := succ_div_mod_eq h.cap_pos hcapeq
      rw [h.lap_eq]
      have hsh : 2 ^ (k + 1) * (S / c.cap % 2 ^ (63 - k)) + 2 ^ (k + 1) =
          2 ^ (k + 1) * (S / c.cap % 2 ^ (63 - k) + 1) + 0 := by ring
      rw [hsh, digits_mod hk63 (Nat.pos_pow_of_pos _ (by norm_num))]
      unfold enc
      rw [hdiv, hmod, Nat.mod_add_mod]
  simp only [start_send]
  rw [hmark0]
  rw [if_neg (by simp : ¬ (0:Nat) ≠ 0)]
  rw [hindex, hlap, ← hts, if_pos rfl, hnt]

theorem slot_set_self {α : Type} {c : Chan α} {i : Nat} (hi : i < c.buffer.length)
    (v : Nat × Option α) {t : Nat} :
    Chan.slot { c with tail := t, buffer := c.buffer.set i v } i = v := by
  unfold Chan.slot
  simp [List.getD_eq_getElem?_getD, List.getElem?_set_self hi]

theorem slot_set_ne {α : Type} {c : Chan α} {i j : Nat} (hne : i ≠ j)
    (v : Nat × Option α) {t : Nat} :
    Chan.slot { c with tail := t, buffer := c.buffer.set i v } j = c.slot j := by
  unfold Chan.slot
  simp [List.getD_eq_getElem?_getD, List.getElem?_set_ne hne]

theorem nxt_mod {cap w i : Nat} (hi : i < cap) : (w * cap + i) % cap = i := by
  rw [Nat.mul_comm w cap, Nat.mul_add_mod, Nat.mod_eq_of_lt hi]

/-- A successful `try_send` commits the message at position `S` and preserves
the invariant with `S + 1` sends. -/
theorem try_send_ok {α : Type} {k S R : Nat} {msgs : List α} {c : Chan α}
    (h : Inv k c S R msgs false) (hS : S < R + c.cap) (m : α) :
    try_send c m = some ({ c with
        tail := enc k c.cap (S + 1)
        buffer := c.buffer.set (S % c.cap) (c.tail + 1, some m) }, none) ∧
    Inv k { c with
        tail := enc k c.cap (S + 1)
        buffer := c.buffer.set (S % c.cap) (c.tail + 1, some m) }
      (S + 1) R (msgs ++ [m]) false := by
  have hk63 := h.k63
  have htail : c.tail = 2 ^ (k + 1) * (S / c.cap % 2 ^ (63 - k)) +
      (2 ^ k * 0 + S % c.cap) := by
    rw [h.tail_eq]
    unfold enc
    norm_num
  have hw := numTo_window h.cap_pos h.hRS hS
  have hcomm : S / c.cap * c.cap = c.cap * (S / c.cap) := Nat.mul_comm _ _
  have hdm := Nat.div_add_mod S c.cap
  have hRS' := h.hRS
  have hSR' := h.hSR
  constructor
  · rw [try_send, start_send_ok h hS]
    rfl
  · refine ⟨h.cap_pos, h.cap_lt, h.k_le, h.mark_eq, h.lap_eq, by omega,
      by show S + 1 ≤ R + c.cap; omega, by simp [h.len_msgs], h.head_eq,
      by simp, by simp [h.buf_len], ?_⟩
    intro i hi
    simp only [] at hi ⊢
    by_cases hieq : i = S % c.cap
    · subst hieq
      have hbnd : S % c.cap < c.buffer.length := by
        rw [h.buf_len]
        exact Nat.mod_lt S h.cap_pos
      rw [slot_set_self hbnd]
      have hnxt : numTo c.cap R (S % c.cap) * c.cap + S % c.cap = S := by
        rw [hw]
        omega
      rw [hnxt, hw]
      constructor
      · rw [if_pos (by omega), htail]
        ring
      · intro _
        rw [← h.len_msgs, List.getElem?_concat_length]
    · rw [slot_set_ne (fun hh => hieq hh.symm) _]
      have hne_nxt : numTo c.cap R i * c.cap + i ≠ S := by
        intro hh
        apply hieq
        rw [← hh, nxt_mod hi]
      obtain ⟨hst, hmsg⟩ := h.slots i hi
      constructor
      · rw [hst]
        split_ifs <;> omega
      · intro hlt
        have hlt' : numTo c.cap R i * c.cap + i < S := by omega
        rw [List.getElem?_append_left (by rw [h.len_msgs]; exact hlt')]
        exact hmsg hlt'

/-- `try_send` on a full, connected channel fails with `Full` and leaves the
state unchanged. -/
theorem try_send_full {α : Type} {k S R : Nat} {msgs : List α} {c : Chan α}
    (h : Inv k c S R msgs false) (hS : S = R + c.cap) (m : α) :
    try_send c m = some (c, some (.full m)) := by
  have hk63 := h.k63
  have hiS : S % c.cap < 2 ^ k := h.iS_lt S
  have haS : S / c.cap % 2 ^ (63 - k) < 2 ^ (63 - k) := h.aS_lt S
  have haR : R / c.cap % 2 ^ (63 - k) < 2 ^ (63 - k) := h.aS_lt R
  have hcapS : S % c.cap < c.cap := Nat.mod_lt S h.cap_pos
  have htailD : c.tail = 2 ^ (k + 1) * (S / c.cap % 2 ^ (63 - k)) +
      (2 ^ k * 0 + S % c.cap) := by
    rw [h.tail_eq]
    unfold enc
    norm_num
  have hmodeq : S % c.cap = R % c.cap := by rw [hS, Nat.add_mod_right]
  have hdiveq : S / c.cap = R / c.cap + 1 := by rw [hS, Nat.add_div_right _ h.cap_pos]
  have hmark0 : c.tail &&& c.mark_bit = 0 := by
    rw [h.mark_eq, htailD, digit_and_mark hiS (by norm_num)]
    ring
  have hindex : c.tail &&& (c.mark_bit - 1) = S % c.cap := by
    rw [h.mark_eq, htailD]
    exact digit_and_lo hiS (by norm_num)
  have hnum : numTo c.cap R (S % c.cap) = R / c.cap := by
    rw [hmodeq, numTo_self]
  have hnxtR : numTo c.cap R (S % c.cap) * c.cap + S % c.cap = R := by
    rw [hnum, hmodeq]
    have hcomm : R / c.cap * c.cap = c.cap * (R / c.cap) := Nat.mul_comm _ _
    have := Nat.div_add_mod R c.cap
    omega
  have hRltS : R < S := by
    have := h.cap_pos
    omega
  have hsl := (h.slots (S % c.cap) hcapS).1
  rw [hnxtR, hnum, if_pos hRltS] at hsl
  have hne1 : ¬ (c.tail =
      2 ^ (k + 1) * (R / c.cap % 2 ^ (63 - k)) + S % c.cap + 1) := by
    intro hcontra
    rw [htailD] at hcontra
    have hsh : 2 ^ (k + 1) * (R / c.cap % 2 ^ (63 - k)) + S % c.cap + 1 =
        2 ^ (k + 1) * (R / c.cap % 2 ^ (63 - k)) + (S % c.cap + 1) := by ring
    rw [hsh] at hcontra
    have hr1 : 2 ^ k * 0 + S % c.cap < 2 ^ (k + 1) := by
      rw [pow_succ]
      omega
    have hr2 : S % c.cap + 1 < 2 ^ (k + 1) := by
      have := h.cap_lt
      rw [pow_succ]
      omega
    obtain ⟨_, hcon2⟩ := digits_inj hr1 hr2 hcontra
    omega
  have heq2 : (2 ^ (k + 1) * (R / c.cap % 2 ^ (63 - k)) + S % c.cap + 1 +
      c.one_lap) % M = c.tail + 1 := by
    rw [h.lap_eq]
    have hsh : 2 ^ (k + 1) * (R / c.cap % 2 ^ (63 - k)) + S % c.cap + 1 +
        2 ^ (k + 1) = 2 ^ (k + 1) * (R / c.cap % 2 ^ (63 - k) + 1) +
        (S % c.cap + 1) := by ring
    have hr2 : S % c.cap + 1 < 2 ^ (k + 1) := by
      have := h.cap_lt
      rw [pow_succ]
      omega
    rw [hsh, digits_mod hk63 hr2, Nat.mod_add_mod, htailD, ← hdiveq]
    ring
  have heq3 : (c.head + c.one_lap) % M = c.tail := by
    rw [h.lap_eq, h.head_eq]
    unfold enc
    have hsh : 2 ^ (k + 1) * (R / c.cap % 2 ^ (63 - k)) + R % c.cap +
        2 ^ (k + 1) = 2 ^ (k + 1) * (R / c.cap % 2 ^ (63 - k) + 1) +
        R % c.cap := by ring
    have hr2 : R % c.cap < 2 ^ (k + 1) := by
      have := h.iS_lt R
      rw [pow_succ]
      omega
    rw [hsh, digits_mod hk63 hr2, Nat.mod_add_mod, htailD, ← hdiveq, hmodeq]
    ring
  simp only [try_send, start_send]
  rw [hmark0, if_neg (by simp : ¬ (0:Nat) ≠ 0), hindex, hsl,
    if_neg hne1, if_pos heq2, if_pos heq3]

/-- `try_send` on a disconnected channel fails with `Disconnected` and leaves
the state unchanged. -/
theorem try_send_disc {α : Type} {k S R : Nat} {msgs : List α} {c : Chan α}
    (h : Inv k c S R msgs true) (m : α) :
    try_send c m = some (c, some (.disconnected m)) := by
  have hiS : S % c.cap < 2 ^ k := h.iS_lt S
  have htailD : c.tail = 2 ^ (k + 1) * (S / c.cap % 2 ^ (63 - k)) +
      (2 ^ k * 1 + S % c.cap) := by
    rw [h.tail_eq]
    unfold enc
    norm_num
    ring
  have hmark : c.tail &&& c.mark_bit = 2 ^ k * 1 := by
    rw [h.mark_eq, htailD]
    exact digit_and_mark hiS (by norm_num)
  simp only [try_send, start_send]
  rw [hmark, if_pos (by simp : 2 ^ k * 1 ≠ 0)]

theorem slot_head_set_self {α : Type} {c : Chan α} {i : Nat}
    (hi : i < c.buffer.length) (v : Nat × Option α) {hd : Nat} :
    Chan.slot { c with head := hd, buffer := c.buffer.set i v } i = v := by
  unfold Chan.slot
  simp [List.getD_eq_getElem?_getD, List.getElem?_set_self hi]

theorem slot_head_set_ne {α : Type} {c : Chan α} {i j : Nat} (hne : i ≠ j)
    (v : Nat × Option α) {hd : Nat} :
    Chan.slot { c with head := hd, buffer := c.buffer.set i v } j = c.slot j := by
  unfold Chan.slot
  simp [List.getD_eq_getElem?_getD, List.getElem?_set_ne hne]

/-- A successful `try_recv` pops exactly the message at position `R` and
preserves the invariant with `R + 1` receives. -/
theorem try_recv_ok {α : Type} {k S R : Nat} {msgs : List α} {d : Bool}
    {c : Chan α} (h : Inv k c S R msgs d) (hR : R < S) :
    ∃ v, msgs[R]? = some v ∧
    try_recv c = some ({ c with
        head := enc k c.cap (R + 1)
        buffer := c.buffer.set (R % c.cap) ((c.head + c.one_lap) % M, some v) },
      Except.ok v) ∧
    Inv k { c with
        head := enc k c.cap (R + 1)
        buffer := c.buffer.set (R % c.cap) ((c.head + c.one_lap) % M, some v) }
      S (R + 1) msgs d := by
  have hk63 := h.k63
  have hiR : R % c.cap < 2 ^ k := h.iS_lt R
  have haR : R / c.cap % 2 ^ (63 - k) < 2 ^ (63 - k) := h.aS_lt R
  have hcapR : R % c.cap < c.cap := Nat.mod_lt R h.cap_pos
  have hRS' := h.hRS
  have hSR' := h.hSR
  have hheadD : c.head = 2 ^ (k + 1) * (R / c.cap % 2 ^ (63 - k)) +
      (2 ^ k * 0 + R % c.cap) := h.head_digit
  have hindexR : c.head &&& (c.mark_bit - 1) = R % c.cap := by
    rw [h.mark_eq, hheadD]
    exact digit_and_lo hiR (by norm_num)
  have hlapR : c.head &&& unot (c.one_lap - 1) =
      2 ^ (k + 1) * (R / c.cap % 2 ^ (63 - k)) := by
    rw [h.lap_eq, hheadD]
    exact digit_and_unot_lap hk63 hiR (by norm_num) haR
  have hnum : numTo c.cap R (R % c.cap) = R / c.cap := numTo_self _ _
  have hcomm : R / c.cap * c.cap = c.cap * (R / c.cap) := Nat.mul_comm _ _
  have hdm := Nat.div_add_mod R c.cap
  have hnxtR : numTo c.cap R (R % c.cap) * c.cap + R % c.cap = R := by
    rw [hnum]
    omega
  obtain ⟨hsl, hmsg⟩ := h.slots (R % c.cap) hcapR
  rw [hnxtR, hnum, if_pos hR] at hsl
  rw [hnxtR] at hmsg
  have hv : ∃ v, msgs[R]? = some v := by
    have hlen : R < msgs.length := by rw [h.len_msgs]; exact hR
    exact ⟨msgs[R], List.getElem?_eq_getElem hlen⟩
  obtain ⟨v, hveq⟩ := hv
  refine ⟨v, hveq, ?_, ?_⟩
  · have hstamp : (c.slot (R % c.cap)).1 = c.head + 1 := by
      rw [hsl, hheadD]
      ring
    have hnh : (if R % c.cap + 1 < c.cap then c.head + 1
        else ((2 ^ (k + 1) * (R / c.cap % 2 ^ (63 - k))) + c.one_lap) % M) =
        enc k c.cap (R + 1) := by
      by_cases hcase : R % c.cap + 1 < c.cap
      · rw [if_pos hcase]
        obtain ⟨hdiv, hmod⟩ := succ_div_mod_lt h.cap_pos hcase
        unfold enc
        rw [hdiv, hmod, hheadD]
        ring
      · rw [if_neg hcase]
        have hcapeq : R % c.cap + 1 = c.cap := by omega
        obtain ⟨hdiv, hmod⟩ := succ_div_mod_eq h.cap_pos hcapeq
        rw [h.lap_eq]
        have hsh : 2 ^ (k + 1) * (R / c.cap % 2 ^ (63 - k)) + 2 ^ (k + 1) =
            2 ^ (k + 1) * (R / c.cap % 2 ^ (63 - k) + 1) + 0 := by ring
        rw [hsh, digits_mod hk63 (Nat.pos_pow_of_pos _ (by norm_num))]
        unfold enc
        rw [hdiv, hmod, Nat.mod_add_mod]
    simp only [try_recv, start_recv]
    rw [hindexR, hstamp, if_pos rfl, hlapR, hnh]
    have hslot1 : Chan.slot { c with head := enc k c.cap (R + 1) } (R % c.cap) =
        c.slot (R % c.cap) := rfl
    simp only [read, hslot1, hmsg hR, hveq]
  · refine ⟨h.cap_pos, h.cap_lt, h.k_le, h.mark_eq, h.lap_eq, by omega,
      by show S ≤ R + 1 + c.cap; omega, h.len_msgs, by simp, ?_, by
        simp [h.buf_len], ?_⟩
    · show c.tail = enc k c.cap S + (if d then 2 ^ k else 0)
      exact h.tail_eq
    intro i hi
    simp only [] at hi ⊢
    by_cases hieq : i = R % c.cap
    · subst hieq
      have hbnd : R % c.cap < c.buffer.length := by
        rw [h.buf_len]
        exact hcapR
      rw [slot_head_set_self hbnd]
      have hnsucc : numTo c.cap (R + 1) (R % c.cap) = R / c.cap + 1 := by
        rw [numTo_succ h.cap_pos R hcapR, if_pos rfl, numTo_self]
      rw [hnsucc]
      have hmul : (R / c.cap + 1) * c.cap = c.cap * (R / c.cap) + c.cap := by ring
      constructor
      · rw [if_neg (by omega)]
        rw [h.lap_eq, hheadD]
        have hsh : 2 ^ (k + 1) * (R / c.cap % 2 ^ (63 - k)) +
            (2 ^ k * 0 + R % c.cap) + 2 ^ (k + 1) =
            2 ^ (k + 1) * (R / c.cap % 2 ^ (63 - k) + 1) + R % c.cap := by ring
        have hr2 : R % c.cap < 2 ^ (k + 1) := by
          rw [pow_succ]
          omega
        rw [hsh, digits_mod hk63 hr2, Nat.mod_add_mod]
        simp
      · intro hcon
        omega
    · rw [slot_head_set_ne (fun hh => hieq hh.symm) _]
      have hnsame : numTo c.cap (R + 1) i = numTo c.cap R i := by
        rw [numTo_succ h.cap_pos R hi, if_neg hieq]
      rw [hnsame]
      exact h.slots i hi

/-- `try_recv` on an empty channel fails with `Empty` (or `Disconnected` when
the mark bit is set) and leaves the state unchanged. -/
theorem try_recv_empty {α : Type} {k S R : Nat} {msgs : List α} {d : Bool}
    {c : Chan α} (h : Inv k c S R msgs d) (hR : R = S) :
    try_recv c = some (c, Except.error
      (if d then TryRecvError.disconnected else TryRecvError.empty)) := by
  subst hR
  have hk63 := h.k63
  have hiR : R % c.cap < 2 ^ k := h.iS_lt R
  have haR : R / c.cap % 2 ^ (63 - k) < 2 ^ (63 - k) := h.aS_lt R
  have hcapR : R % c.cap < c.cap := Nat.mod_lt R h.cap_pos
  have hheadD : c.head = 2 ^ (k + 1) * (R / c.cap % 2 ^ (63 - k)) +
      (2 ^ k * 0 + R % c.cap) := h.head_digit
  have htailD : c.tail = 2 ^ (k + 1) * (R / c.cap % 2 ^ (63 - k)) +
      (2 ^ k * (if d then 1 else 0) + R % c.cap) := h.tail_digit
  have hindexR : c.head &&& (c.mark_bit - 1) = R % c.cap := by
    rw [h.mark_eq, hheadD]
    exact digit_and_lo hiR (by norm_num)
  have hnum : numTo c.cap R (R % c.cap) = R / c.cap := numTo_self _ _
  have hcomm : R / c.cap * c.cap = c.cap * (R / c.cap) := Nat.mul_comm _ _
  have hdm := Nat.div_add_mod R c.cap
  have hnxtR : numTo c.cap R (R % c.cap) * c.cap + R % c.cap = R := by
    rw [hnum]
    omega
  have hsl := (h.slots (R % c.cap) hcapR).1
  rw [hnxtR, hnum, if_neg (lt_irrefl R)] at hsl
  have hstamp : (c.slot (R % c.cap)).1 = c.head := by
    rw [hsl, hheadD]
    ring
  have hne1 : ¬ (c.head + 1 = (c.slot (R % c.cap)).1) := by
    rw [hstamp]
    omega
  have hTU : c.tail &&& unot c.mark_bit = c.head := by
    rw [h.mark_eq, htailD, digit_and_unot_mark hk63 hiR
      (by split_ifs <;> norm_num) haR, hheadD]
  have hmark : c.tail &&& c.mark_bit = 2 ^ k * (if d then 1 else 0) := by
    rw [h.mark_eq, htailD]
    exact digit_and_mark hiR (by split_ifs <;> norm_num)
  simp only [try_recv, start_recv]
  rw [hindexR, if_neg hne1, hstamp, if_pos rfl, hTU, if_pos rfl, hmark]
  cases d <;> simp

/-- `disconnect` sets the mark bit, returns whether this call made the
transition, and preserves the invariant with the flag raised.  When the bit
was already set, the state is completely unchanged. -/
theorem disconnect_spec {α : Type} {k S R : Nat} {msgs : List α} {d : Bool}
    {c : Chan α} (h : Inv k c S R msgs d) :
    disconnect c = ({ c with tail := enc k c.cap S + 2 ^ k }, !d) ∧
    Inv k { c with tail := enc k c.cap S + 2 ^ k } S R msgs true ∧
    (d = true → ({ c with tail := enc k c.cap S + 2 ^ k } : Chan α) = c) := by
  have hk63 := h.k63
  have hiS : S % c.cap < 2 ^ k := h.iS_lt S
  have haS : S / c.cap % 2 ^ (63 - k) < 2 ^ (63 - k) := h.aS_lt S
  have htailD : c.tail = 2 ^ (k + 1) * (S / c.cap % 2 ^ (63 - k)) +
      (2 ^ k * (if d then 1 else 0) + S % c.cap) := h.tail_digit
  have hor : c.tail ||| c.mark_bit = enc k c.cap S + 2 ^ k := by
    rw [h.mark_eq, htailD, digit_or_mark hk63 hiS (by split_ifs <;> norm_num) haS]
    unfold enc
    ring
  have hmark : c.tail &&& c.mark_bit = 2 ^ k * (if d then 1 else 0) := by
    rw [h.mark_eq, htailD]
    exact digit_and_mark hiS (by split_ifs <;> norm_num)
  refine ⟨?_, ?_, ?_⟩
  · simp only [disconnect]
    rw [hor, hmark]
    cases d
    · simp
    · simp
  · refine ⟨h.cap_pos, h.cap_lt, h.k_le, h.mark_eq, h.lap_eq, h.hRS,
      by show S ≤ R + c.cap; exact h.hSR, h.len_msgs, h.head_eq, by simp, h.buf_len, ?_⟩
    intro i hi
    simp only [] at hi ⊢
    exact h.slots i hi
  · intro hd
    subst hd
    have : c.tail = enc k c.cap S + 2 ^ k := by
      rw [htailD]
      unfold enc
      simp
      ring
    cases c
    simp only [] at this ⊢
    rw [this]

/-- `len` returns exactly the number of outstanding messages `S - R`. -/
theorem len_spec {α : Type} {k S R : Nat} {msgs : List α} {d : Bool}
    {c : Chan α} (h : Inv k c S R msgs d) : len c = S - R := by
  have hk63 := h.k63
  have hiR : R % c.cap < 2 ^ k := h.iS_lt R
  have hiS : S % c.cap < 2 ^ k := h.iS_lt S
  have haR : R / c.cap % 2 ^ (63 - k) < 2 ^ (63 - k) := h.aS_lt R
  have haS : S / c.cap % 2 ^ (63 - k) < 2 ^ (63 - k) := h.aS_lt S
  have hcapR : R % c.cap < c.cap := Nat.mod_lt R h.cap_pos
  have hcapS : S % c.cap < c.cap := Nat.mod_lt S h.cap_pos
  have hRS' := h.hRS
  have hSR' := h.hSR
  have hdmR := Nat.div_add_mod R c.cap
  have hdmS := Nat.div_add_mod S c.cap
  have hq1 : R / c.cap ≤ S / c.cap := Nat.div_le_div_right hRS'
  have hq2 : S / c.cap ≤ R / c.cap + 1 := by
    have hx : S / c.cap ≤ (R + c.cap) / c.cap := Nat.div_le_div_right hSR'
    rw [Nat.add_div_right _ h.cap_pos] at hx
    exact hx
  have hmul : c.cap * (R / c.cap + 1) = c.cap * (R / c.cap) + c.cap := by ring
  have hheadD : c.head = 2 ^ (k + 1) * (R / c.cap % 2 ^ (63 - k)) +
      (2 ^ k * 0 + R % c.cap) := h.head_digit
  have htailD : c.tail = 2 ^ (k + 1) * (S / c.cap % 2 ^ (63 - k)) +
      (2 ^ k * (if d then 1 else 0) + S % c.cap) := h.tail_digit
  have hhix : c.head &&& (c.mark_bit - 1) = R % c.cap := by
    rw [h.mark_eq, hheadD]
    exact digit_and_lo hiR (by norm_num)
  have htix : c.tail &&& (c.mark_bit - 1) = S % c.cap := by
    rw [h.mark_eq, htailD]
    exact digit_and_lo hiS (by split_ifs <;> norm_num)
  have hTU : c.tail &&& unot c.mark_bit = 2 ^ (k + 1) *
      (S / c.cap % 2 ^ (63 - k)) + (2 ^ k * 0 + S % c.cap) := by
    rw [h.mark_eq, htailD]
    exact digit_and_unot_mark hk63 hiS (by split_ifs <;> norm_num) haS
  have hcase : S / c.cap = R / c.cap ∨ S / c.cap = R / c.cap + 1 := by omega
  simp only [len]
  rw [hhix, htix, hTU, hheadD]
  rcases hcase with hq | hq <;> rw [hq] at hdmS ⊢
  · rcases Nat.lt_trichotomy (R % c.cap) (S % c.cap) with hlt | heq | hgt
    · rw [if_pos hlt]
      omega
    · rw [if_neg (by omega), if_neg (by omega), ← heq, if_pos rfl]
      omega
    · exfalso
      omega
  · rcases Nat.lt_trichotomy (R % c.cap) (S % c.cap) with hlt | heq | hgt
    · exfalso
      omega
    · have hneA : (R / c.cap + 1) % 2 ^ (63 - k) ≠ R / c.cap % 2 ^ (63 - k) :=
        mod_succ_ne h.N_ge_two
      rw [if_neg (by omega), if_neg (by omega), if_neg ?hc]
      case hc =>
        intro hcontra
        have hr1 : 2 ^ k * 0 + S % c.cap < 2 ^ (k + 1) := by
          rw [pow_succ]
          omega
        have hr2 : 2 ^ k * 0 + R % c.cap < 2 ^ (k + 1) := by
          rw [pow_succ]
          omega
        obtain ⟨ha, _⟩ := digits_inj hr1 hr2 hcontra
        exact hneA ha
      omega
    · rw [if_neg (by omega), if_pos hgt]
      omega

/-- The operations of a sequential experiment on an array channel. -/
inductive AOp (α : Type) where
  | send (m : α)
  | recv
  | disconnect

/-- One sequential operation.  The middle/right components record the
successfully sent and received message, if any.  `none` models an execution
that spins forever. -/
def runStep (c : Chan α) : AOp α → Option (Chan α × Option α × Option α)
  | .send m =>
    match try_send c m with
    | some (c', none) => some (c', some m, none)
    | some (c', some _) => some (c', none, none)
    | none => none
  | .recv =>
    match try_recv c with
    | some (c', Except.ok v) => some (c', none, some v)
    | some (c', Except.error _) => some (c', none, none)
    | none => none
  | .disconnect => some ((disconnect c).1, none, none)

/-- Run a sequence of operations, collecting the successfully sent and the
successfully received messages in order. -/
def runA (c : Chan α) : List (AOp α) → Option (Chan α × List α × List α)
  | [] => some (c, [], [])
  | op :: ops =>
    match runStep c op with
    | none => none
    | some (c', sOpt, rOpt) =>
      match runA c' ops with
      | none => none
      | some (c'', sent, recvd) =>
        some (c'', sOpt.toList ++ sent, rOpt.toList ++ recvd)

theorem drop_take_cons {β : Type} {l : List β} {R R' : Nat} (h1 : R < R')
    (h2 : R' ≤ l.length) {v : β} (hv : l[R]? = some v) :
    (l.take R').drop R = v :: (l.take R').drop (R + 1) := by
  have hlen : R < (l.take R').length := by
    rw [List.length_take]
    omega
  rw [List.drop_eq_getElem_cons hlen]
  congr 1
  have hq : (l.take R')[R]? = some v := by
    rw [List.getElem?_take_of_lt h1]
    exact hv
  rw [List.getElem?_eq_getElem hlen] at hq
  exact Option.some.inj hq

/-- The main simulation: any run from an invariant state succeeds, preserves
the invariant, extends the message log, and the received messages are exactly
the slice of the log from the old to the new receive counter. -/
theorem runA_spec {α : Type} (ops : List (AOp α)) :
    ∀ {k S R : Nat} {msgs : List α} {d : Bool} {c : Chan α}, Inv k c S R msgs d →
    ∃ c' S' R' msgs' d' sent recvd,
      runA c ops = some (c', sent, recvd) ∧
      Inv k c' S' R' msgs' d' ∧
      c'.cap = c.cap ∧
      msgs' = msgs ++ sent ∧
      R ≤ R' ∧
      (d = true → d' = true) ∧
      recvd = (msgs'.take R').drop R := by
  induction ops with
  | nil =>
    intro k S R msgs d c h
    refine ⟨c, S, R, msgs, d, [], [], rfl, h, rfl, by simp, le_refl R,
      fun hd => hd, ?_⟩
    have hlen : (msgs.take R).length ≤ R := by
      rw [List.length_take]
      omega
    rw [List.drop_eq_nil_of_le hlen]
  | cons op ops ih =>
    intro k S R msgs d c h
    cases op with
    | send m =>
      cases d with
      | false =>
        rcases Nat.lt_or_ge S (R + c.cap) with hlt | hge
        · obtain ⟨hstep, hinv⟩ := try_send_ok h hlt m
          obtain ⟨c', S', R', msgs', d', sent, recvd, hrun, hinv', hcap,
            hmsgs, hRle, hdmono, hrecvd⟩ := ih hinv
          refine ⟨c', S', R', msgs', d', m :: sent, recvd, ?_, hinv', by
            rw [hcap], by rw [hmsgs]; simp, hRle, fun hd => Bool.noConfusion hd, hrecvd⟩
          simp only [runA, runStep, hstep, hrun]
          rfl
        · have hfull : S = R + c.cap := by
            have := h.hSR
            omega
          have hstep := try_send_full h hfull m
          obtain ⟨c', S', R', msgs', d', sent, recvd, hrun, hinv', hcap,
            hmsgs, hRle, hdmono, hrecvd⟩ := ih h
          refine ⟨c', S', R', msgs', d', sent, recvd, ?_, hinv', hcap,
            hmsgs, hRle, fun hd => Bool.noConfusion hd, hrecvd⟩
          simp only [runA, runStep, hstep, hrun]
          rfl
      | true =>
        have hstep := try_send_disc h m
        obtain ⟨c', S', R', msgs', d', sent, recvd, hrun, hinv', hcap,
          hmsgs, hRle, hdmono, hrecvd⟩ := ih h
        refine ⟨c', S', R', msgs', d', sent, recvd, ?_, hinv', hcap,
          hmsgs, hRle, hdmono, hrecvd⟩
        simp only [runA, runStep, hstep, hrun]
        rfl
    | recv =>
      rcases Nat.lt_or_ge R S with hlt | hge
      · obtain ⟨v, hv, hstep, hinv⟩ := try_recv_ok h hlt
        obtain ⟨c', S', R', msgs', d', sent, recvd, hrun, hinv', hcap,
          hmsgs, hRle, hdmono, hrecvd⟩ := ih hinv
        refine ⟨c', S', R', msgs', d', sent, v :: recvd, ?_, hinv', by
          rw [hcap], hmsgs, by omega, hdmono, ?_⟩
        · simp only [runA, runStep, hstep, hrun]
          rfl
        · have hvm : msgs'[R]? = some v := by
            rw [hmsgs, List.getElem?_append_left (by rw [h.len_msgs]; omega), hv]
          have hR'len : R' ≤ msgs'.length := by
            rw [hinv'.len_msgs]
            exact hinv'.hRS
          rw [drop_take_cons (by omega) hR'len hvm, hrecvd]
      · have heq : R = S := by
          have := h.hRS
          omega
        have hstep := try_recv_empty h heq
        obtain ⟨c', S', R', msgs', d', sent, recvd, hrun, hinv', hcap,
          hmsgs, hRle, hdmono, hrecvd⟩ := ih h
        refine ⟨c', S', R', msgs', d', sent, recvd, ?_, hinv', hcap,
          hmsgs, hRle, hdmono, hrecvd⟩
        simp only [runA, runStep, hstep, hrun]
        rfl
    | disconnect =>
      obtain ⟨hstep, hinv, _⟩ := disconnect_spec h
      obtain ⟨c', S', R', msgs', d', sent, recvd, hrun, hinv', hcap,
        hmsgs, hRle, hdmono, hrecvd⟩ := ih hinv
      refine ⟨c', S', R', msgs', d', sent, recvd, ?_, hinv', by rw [hcap],
        hmsgs, hRle, fun _ => hdmono rfl, hrecvd⟩
      simp only [runA, runStep, hstep, hrun]
      rfl

theorem is_disconnected_spec {α : Type} {k S R : Nat} {msgs : List α} {d : Bool}
    {c : Chan α} (h : Inv k c S R msgs d) : is_disconnected c = d := by
  have hiS : S % c.cap < 2 ^ k := h.iS_lt S
  have hmark : c.tail &&& c.mark_bit = 2 ^ k * (if d then 1 else 0) := by
    rw [h.mark_eq, h.tail_digit]
    exact digit_and_mark hiS (by split_ifs <;> norm_num)
  unfold is_disconnected
  rw [hmark]
  cases d
  · simp
  · simp

theorem with_capacity_cap {α : Type} {cap : Nat} {c : Chan α} (h1 : 0 < cap)
    (h : with_capacity α cap = some c) : c.cap = cap := by
  unfold with_capacity at h
  rw [if_pos h1] at h
  cases h
  rfl

end ArrayCh

/-- C1: for every sequence of sequential `try_send` / `try_recv` (and
`disconnect`) operations on a fresh array channel of capacity `cap`, the run
terminates and the list of successfully received messages is an initial
segment of the list of successfully sent messages: the n-th successful
`try_recv` returns exactly the n-th successfully sent message.  (`cap ≤ 2^60`
keeps the source's `(cap + 1).next_power_of_two() * 2` from overflowing
`usize`.) -/
theorem C1_array_fifo {α : Type} (cap : Nat) (h1 : 0 < cap) (h2 : cap ≤ 2 ^ 60)
    (ops : List (ArrayCh.AOp α)) :
    ∃ c0 c' sent recvd, ArrayCh.with_capacity α cap = some c0 ∧
      ArrayCh.runA c0 ops = some (c', sent, recvd) ∧
      recvd = sent.take recvd.length := by
  obtain ⟨c0, hc0⟩ : ∃ c0, ArrayCh.with_capacity α cap = some c0 := by
    unfold ArrayCh.with_capacity
    rw [if_pos h1]
    exact ⟨_, rfl⟩
  have hinv := ArrayCh.with_capacity_inv h1 h2 hc0
  obtain ⟨c', S', R', msgs', d', sent, recvd, hrun, hinv', hcap, hmsgs,
    hRle, _, hrecvd⟩ := ArrayCh.runA_spec ops hinv
  refine ⟨c0, c', sent, recvd, hc0, hrun, ?_⟩
  have hsent : msgs' = sent := by simpa using hmsgs
  have hlen : recvd.length = R' := by
    rw [hrecvd]
    simp only [List.drop_zero, List.length_take]
    have := hinv'.hRS
    rw [hsent]
    have hlensent : sent.length = S' := by rw [← hsent, hinv'.len_msgs]
    omega
  rw [hlen, hrecvd, hsent]
  simp

/-- C1 witness: a concrete run on a capacity-2 channel. -/
theorem C1_array_fifo_witness :
    ∃ c0 c' sent recvd, ArrayCh.with_capacity Nat 2 = some c0 ∧
      ArrayCh.runA c0 [ArrayCh.AOp.send 10, ArrayCh.AOp.send 20,
        ArrayCh.AOp.recv, ArrayCh.AOp.recv] = some (c', sent, recvd) ∧
      recvd = sent.take recvd.length :=
  C1_array_fifo 2 (by norm_num) (by norm_num)
    [ArrayCh.AOp.send 10, ArrayCh.AOp.send 20, ArrayCh.AOp.recv, ArrayCh.AOp.recv]

/-- C2: in every state reachable from a fresh array channel of capacity `cap`
by sequential operations (`try_send`, `try_recv`, `disconnect`), `len()`
never exceeds `cap`; and whenever `len()` equals `cap` and the channel is not
disconnected, `try_send` fails with `Full`, leaving the state unchanged. -/
theorem C2_array_bounded {α : Type} (cap : Nat) (h1 : 0 < cap)
    (h2 : cap ≤ 2 ^ 60) (ops : List (ArrayCh.AOp α)) {c0 c' : ArrayCh.Chan α}
    {sent recvd : List α} (hc0 : ArrayCh.with_capacity α cap = some c0)
    (hrun : ArrayCh.runA c0 ops = some (c', sent, recvd)) :
    ArrayCh.len c' ≤ cap ∧
    ∀ m, ArrayCh.len c' = cap → ArrayCh.is_disconnected c' = false →
      ArrayCh.try_send c' m = some (c', some (TrySendError.full m)) := by
  have hinv := ArrayCh.with_capacity_inv h1 h2 hc0
  obtain ⟨c'', S', R', msgs', d', sent', recvd', hrun', hinv', hcap, _, _, _, _⟩ :=
    ArrayCh.runA_spec ops hinv
  rw [hrun] at hrun'
  simp only [Option.some.injEq, Prod.mk.injEq] at hrun'
  obtain ⟨he1, _, _⟩ := hrun'
  subst he1
  have hc0cap : c0.cap = cap := ArrayCh.with_capacity_cap h1 hc0
  have hlen := ArrayCh.len_spec hinv'
  have hSR' := hinv'.hSR
  have hRS' := hinv'.hRS
  constructor
  · rw [hlen]
    omega
  · intro m hfull hdisc
    have hd' : d' = false := by
      have := ArrayCh.is_disconnected_spec hinv'
      rw [hdisc] at this
      exact this.symm
    subst hd'
    have hSeq : S' = R' + c'.cap := by
      rw [hlen] at hfull
      omega
    exact ArrayCh.try_send_full hinv' hSeq m

/-- C2 witness: a capacity-1 channel after one successful send is full. -/
theorem C2_array_bounded_witness :
    ArrayCh.len (⟨0, 4, [(1, some 5)], 1, 4, 2⟩ : ArrayCh.Chan Nat) ≤ 1 ∧
    ∀ m, ArrayCh.len (⟨0, 4, [(1, some 5)], 1, 4, 2⟩ : ArrayCh.Chan Nat) = 1 →
      ArrayCh.is_disconnected (⟨0, 4, [(1, some 5)], 1, 4, 2⟩ : ArrayCh.Chan Nat)
        = false →
      ArrayCh.try_send (⟨0, 4, [(1, some 5)], 1, 4, 2⟩ : ArrayCh.Chan Nat) m =
        some (⟨0, 4, [(1, some 5)], 1, 4, 2⟩,
          some (TrySendError.full m)) := by
  have hc0 : ArrayCh.with_capacity Nat 1 =
      some ⟨0, 0, [(0, none)], 1, 4, 2⟩ := by
    unfold ArrayCh.with_capacity nextPow2
    rw [if_pos (by norm_num), Nat.clog_eq_one (by norm_num) (by norm_num)]
    rfl
  have hrun : ArrayCh.runA (⟨0, 0, [(0, none)], 1, 4, 2⟩ : ArrayCh.Chan Nat)
      [ArrayCh.AOp.send 5] =
      some (⟨0, 4, [(1, some 5)], 1, 4, 2⟩, [5], []) := by decide
  exact C2_array_bounded 1 (by norm_num) (by norm_num) [ArrayCh.AOp.send 5]
    hc0 hrun

/-- C10: `with_capacity(0)` hits the `capacity must be positive` assertion
(modeled as `none`); for `cap > 0` the constructed channel has
`mark_bit = next_power_of_two(cap + 1)`, which strictly exceeds `cap`, so the
index field below the mark bit accommodates every slot index in `[0, cap)`. -/
theorem C10_with_capacity {α : Type} :
    ArrayCh.with_capacity α 0 = none ∧
    ∀ cap : Nat, 0 < cap → ∃ c : ArrayCh.Chan α,
      ArrayCh.with_capacity α cap = some c ∧
      c.mark_bit = nextPow2 (cap + 1) ∧
      cap < c.mark_bit ∧
      c.one_lap = c.mark_bit * 2 ∧
      c.head = 0 ∧ c.tail = 0 ∧
      ∀ i, i < cap → i < c.mark_bit := by
  constructor
  · unfold ArrayCh.with_capacity
    rw [if_neg (by norm_num)]
  · intro cap hcap
    refine ⟨_, by unfold ArrayCh.with_capacity; rw [if_pos hcap], rfl, ?_, rfl,
      rfl, rfl, ?_⟩
    · show cap < nextPow2 (cap + 1)
      have := nextPow2_ge (cap + 1)
      omega
    · intro i hi
      show i < nextPow2 (cap + 1)
      have := nextPow2_ge (cap + 1)
      omega

/-- C10 witness: the construction at capacity 3. -/
theorem C10_with_capacity_witness :
    ∃ c : ArrayCh.Chan Nat, ArrayCh.with_capacity Nat 3 = some c ∧
      c.mark_bit = nextPow2 4 ∧ 3 < c.mark_bit ∧ c.one_lap = c.mark_bit * 2 ∧
      c.head = 0 ∧ c.tail = 0 ∧ ∀ i, i < 3 → i < c.mark_bit :=
  (C10_with_capacity (α := Nat)).2 3 (by norm_num)

/-! ## `list.rs`: the unbounded channel

Heap blocks are identified by the global slot position (`index >> SHIFT`):
the slot at position `p` lives in block number `p / LAP` at offset `p % LAP`.
`headBlockNull` / `tailBlockNull` model nullness of the `head.block` /
`tail.block` pointers; a block's `next` pointer is non-null exactly when some
sender has crossed its end, i.e. when the tail position has entered the
following block.  The `receivers` `SyncWaker` is elided as in the array
model.  The source's plain `+` on indices is kept as `Nat` addition. -/

namespace ListCh

def LAP : Nat := 32
def BLOCK_CAP : Nat := LAP - 1
def SHIFT : Nat := 1
def MARK_BIT : Nat := 1
def WRITE : Nat := 1
def READ : Nat := 2
def DESTROY : Nat := 4

/-- `list.rs` `Channel<T>`: head/tail `Position`s plus the per-position slot
state bit sets and message storage. -/
structure Chan (α : Type) where
  headIdx : Nat
  tailIdx : Nat
  headBlockNull : Bool
  tailBlockNull : Bool
  states : Nat → Nat
  msgs : Nat → Option α

/-- `Channel::new`. -/
def mkNew (α : Type) : Chan α :=
  { headIdx := 0, tailIdx := 0, headBlockNull := true, tailBlockNull := true,
    states := fun _ => 0, msgs := fun _ => none }

/-- Outcome of one reservation pass (cf. `ArrayCh.StartRes`): `token`
carries the reserved global position and in-block offset. -/
inductive LStart where
  | disconnected
  | token (pos offset : Nat)
  | notReady
  | spin

/-- One pass of the `start_send` loop.  Sequentially the CAS succeeds; a pass
ending in back-off (`offset == BLOCK_CAP`) is reported as `.spin`.  The
preallocation of the successor block is a heap-only effect. -/
def start_send (c : Chan α) : LStart × Chan α :=
  let tail := c.tailIdx
  if tail &&& MARK_BIT ≠ 0 then (.disconnected, c)
  else
    let offset := (tail >>> SHIFT) % LAP
    if offset = BLOCK_CAP then (.spin, c)
    else
      -- first message ever: install a fresh block as both tail and head block
      let c1 := if c.tailBlockNull then
          { c with tailBlockNull := false, headBlockNull := false }
        else c
      let new_tail := tail + (1 <<< SHIFT)
      let c2 := { c1 with tailIdx := new_tail }
      -- block end reached: install the preallocated successor and step the
      -- index past the boundary slot (`fetch_add(1 << SHIFT)`)
      let c3 := if offset + 1 = BLOCK_CAP then
          { c2 with tailIdx := new_tail + (1 <<< SHIFT) }
        else c2
      (.token (tail >>> SHIFT) offset, c3)

/-- `Channel::write`: place the message and `fetch_or(WRITE)` its state
(`receivers.notify()` is a no-op on the empty registry). -/
def write (c : Chan α) (pos : Nat) (m : α) : Chan α :=
  { c with
    msgs := fun p => if p = pos then some m else c.msgs p
    states := fun p => if p = pos then c.states p ||| WRITE else c.states p }

/-- `Channel::send`: `assert!(start_send(token))` then `write`; the deadline
is ignored (`_deadline`), the path never parks. -/
def send (c : Chan α) (m : α) (deadline : Option Unit) :
    Option (Chan α × Option (SendTimeoutError α)) :=
  match start_send c with
  | (.disconnected, c') => some (c', some (.disconnected m))
  | (.token pos _, c') => some (write c' pos m, none)
  | (.notReady, _) => none
  | (.spin, _) => none

/-- `Channel::try_send` delegates to `send(msg, None)`; a `Timeout` would hit
the `unreachable!()` (modeled as `none`). -/
def try_send (c : Chan α) (m : α) : Option (Chan α × Option (TrySendError α)) :=
  match send c m none with
  | some (c', none) => some (c', none)
  | some (c', some (SendTimeoutError.disconnected msg)) =>
    some (c', some (TrySendError.disconnected msg))
  | some (_, some (SendTimeoutError.timeout _)) => none
  | none => none

/-- Whether block number `b`'s `next` pointer has been installed: some send
has crossed its end, i.e. the tail position has entered block `b + 1`. -/
def hasNext (c : Chan α) (b : Nat) : Bool :=
  (b + 1) * LAP ≤ c.tailIdx >>> SHIFT

/-- One pass of the `start_recv` loop (sequential CAS always succeeds). -/
def start_recv (c : Chan α) : LStart × Chan α :=
  let head := c.headIdx
  let offset := (head >>> SHIFT) % LAP
  if offset = BLOCK_CAP then (.spin, c)
  else
    let new_head := head + (1 <<< SHIFT)
    -- the emptiness test runs only when the head is not marked
    if hempty : new_head &&& MARK_BIT = 0 ∧
        head >>> SHIFT = c.tailIdx >>> SHIFT then
      if c.tailIdx &&& MARK_BIT ≠ 0 then (.disconnected, c)
      else (.notReady, c)
    else
      let new_head1 := if new_head &&& MARK_BIT = 0 ∧
          (head >>> SHIFT) / LAP ≠ (c.tailIdx >>> SHIFT) / LAP then
          new_head ||| MARK_BIT
        else new_head
      if c.headBlockNull then (.spin, c)
      else
        -- CAS head.index; on a block end, wait for `next` and publish it
        if offset + 1 = BLOCK_CAP then
          if hasNext c ((head >>> SHIFT) / LAP) then
            let next_index := (new_head1 &&& unot MARK_BIT) + (1 <<< SHIFT)
            let next_index1 :=
              if hasNext c ((head >>> SHIFT) / LAP + 1) then
                next_index ||| MARK_BIT
              else next_index
            (.token (head >>> SHIFT) offset, { c with headIdx := next_index1 })
          else (.spin, c)   -- `wait_next()` would spin forever sequentially
        else (.token (head >>> SHIFT) offset, { c with headIdx := new_head1 })

/-- The loop of `Block::destroy(this, start)`, counting down the remaining
slots before `BLOCK_CAP - 1`; freeing the block itself is a heap-only
effect. -/
def destroyGo (base : Nat) : Nat → Nat → (Nat → Nat) → (Nat → Nat)
  | _, 0, st => st
  | i, rem + 1, st =>
    if st (base + i) &&& READ = 0 then
      -- fetch_or(DESTROY) still sees no READ: hand the duty to the reader
      fun p => if p = base + i then st p ||| DESTROY else st p
    else destroyGo base (i + 1) rem st

/-- `Block::destroy(this, start)` on the block containing position `pos`. -/
def destroy (st : Nat → Nat) (pos start : Nat) : Nat → Nat :=
  destroyGo (pos / LAP * LAP) start (BLOCK_CAP - 1 - start) st

/-- `Channel::read`: `wait_write` (a slot without `WRITE` would spin forever
sequentially), read the message, then run the block-destruction protocol. -/
def read (c : Chan α) (pos offset : Nat) : Option (Chan α × α) :=
  if c.states pos &&& WRITE = 0 then none
  else
    match c.msgs pos with
    | none => none
    | some m =>
      if offset + 1 = BLOCK_CAP then
        some ({ c with states := destroy c.states pos 0 }, m)
      else
        let old := c.states pos
        let c1 := { c with
          states := fun p => if p = pos then c.states p ||| READ else c.states p }
        if old &&& DESTROY ≠ 0 then
          some ({ c1 with states := destroy c1.states pos (offset + 1) }, m)
        else some (c1, m)

/-- `Channel::try_recv`. -/
def try_recv (c : Chan α) : Option (Chan α × Except TryRecvError α) :=
  match start_recv c with
  | (.token pos offset, c') =>
    match read c' pos offset with
    | some (c'', m) => some (c'', Except.ok m)
    | none => none
  | (.disconnected, c') => some (c', Except.error .disconnected)
  | (.notReady, c') => some (c', Except.error .empty)
  | (.spin, _) => none

/-- `Channel::is_disconnected`. -/
def is_disconnected (c : Chan α) : Bool := c.tailIdx &&& MARK_BIT != 0

/-- `Channel::is_empty`. -/
def is_empty (c : Chan α) : Bool :=
  c.headIdx >>> SHIFT == c.tailIdx >>> SHIFT

/-- `Channel::is_full`. -/
def is_full (c : Chan α) : Bool := false

/-- `Channel::capacity`. -/
def capacity (c : Chan α) : Option Nat := none

/-- `Channel::disconnect_senders`: `fetch_or(MARK_BIT)` on the tail index;
if first, `receivers.disconnect()` (a no-op on the empty registry). -/
def disconnect_senders (c : Chan α) : Chan α × Bool :=
  let tail := c.tailIdx
  ({ c with tailIdx := tail ||| MARK_BIT }, tail &&& MARK_BIT == 0)

/-- `Channel::discard_all_messages`: wait out a transient block-end tail
(sequentially that would spin forever), then drop every message between head
and tail, deallocate the blocks, clear the head mark bit and null the head
block.  The drop loop is collapsed into one state update. -/
def discard_all_messages (c : Chan α) : Option (Chan α) :=
  if (c.tailIdx >>> SHIFT) % LAP = BLOCK_CAP then none
  else
    some { c with
      msgs := fun p =>
        if c.headIdx >>> SHIFT ≤ p ∧ p < c.tailIdx >>> SHIFT then none
        else c.msgs p
      headBlockNull := true
      headIdx := (c.tailIdx >>> SHIFT) <<< SHIFT }

/-- `Channel::disconnect_receivers`: set the mark bit; if this call made the
transition, eagerly discard all undelivered messages. -/
def disconnect_receivers (c : Chan α) : Option (Chan α × Bool) :=
  let tail := c.tailIdx
  let c1 := { c with tailIdx := tail ||| MARK_BIT }
  if tail &&& MARK_BIT = 0 then
    (discard_all_messages c1).map (fun c2 => (c2, true))
  else some (c1, false)

end ListCh

namespace ListCh

/-- Message number `n` (0-based) occupies index position `n + n / BLOCK_CAP`:
one boundary slot is skipped at the end of each block. -/
def posL (n : Nat) : Nat := n + n / BLOCK_CAP

/-- The tail-side invariant of sequentially reachable list channels: `S`
messages have been committed and `d` is the disconnect mark. -/
structure LInv {α : Type} (c : Chan α) (S : Nat) (d : Bool) : Prop where
  tail_eq : c.tailIdx = 2 * posL S + (if d then 1 else 0)
  null_eq : c.tailBlockNull = decide (S = 0)

theorem posL_decomp (n : Nat) : posL n = LAP * (n / BLOCK_CAP) + n % BLOCK_CAP := by
  unfold posL
  rw [show BLOCK_CAP = 31 from rfl, show LAP = 32 from rfl]
  have := Nat.div_add_mod n 31
  omega

theorem posL_offset (n : Nat) : posL n % LAP = n % BLOCK_CAP := by
  rw [posL_decomp, Nat.mul_add_mod]
  have h1 : n % BLOCK_CAP < LAP := by
    have h2 := Nat.mod_lt n (show 0 < BLOCK_CAP by decide)
    have h3 : BLOCK_CAP < LAP := by decide
    omega
  exact Nat.mod_eq_of_lt h1

theorem posL_succ (n : Nat) :
    posL (n + 1) = posL n + (if n % BLOCK_CAP + 1 = BLOCK_CAP then 2 else 1) := by
  unfold posL
  have hB : 0 < BLOCK_CAP := by decide
  by_cases hc : n % BLOCK_CAP + 1 = BLOCK_CAP
  · obtain ⟨hdiv, _⟩ := ArrayCh.succ_div_mod_eq hB hc
    rw [hdiv, if_pos hc]
    omega
  · have hlt : n % BLOCK_CAP + 1 < BLOCK_CAP := by
      have := Nat.mod_lt n hB
      omega
    obtain ⟨hdiv, _⟩ := ArrayCh.succ_div_mod_lt hB hlt
    rw [hdiv, if_neg hc]
    omega

theorem shiftRight_one (x : Nat) : x >>> 1 = x / 2 := by
  rw [Nat.shiftRight_eq_div_pow]

theorem even_and_one (p : Nat) : (2 * p) &&& 1 = 0 := by
  rw [Nat.and_one_is_mod]
  omega

theorem odd_and_one (p : Nat) : (2 * p + 1) &&& 1 = 1 := by
  rw [Nat.and_one_is_mod]
  omega

theorem even_or_one (p : Nat) : (2 * p) ||| 1 = 2 * p + 1 := by
  have h := Nat.mul_add_lt_is_or (i := 1) (b := 1) (by norm_num) p
  have h2 : (2:Nat) ^ 1 = 2 := by norm_num
  rw [h2] at h
  exact h.symm

theorem odd_or_one (p : Nat) : (2 * p + 1) ||| 1 = 2 * p + 1 := by
  apply Nat.eq_of_testBit_eq
  intro j
  rw [Nat.testBit_or]
  cases j with
  | zero =>
    have h1 : (2 * p + 1) % 2 = 1 := by omega
    simp [Nat.testBit_zero, h1]
  | succ j =>
    have h1 : Nat.testBit 1 (j + 1) = false :=
      Nat.testBit_lt_two_pow (by
        have : (2:Nat) ≤ 2 ^ (j + 1) := by
          calc (2:Nat) = 2 ^ 1 := by norm_num
            _ ≤ 2 ^ (j + 1) := Nat.pow_le_pow_right (by norm_num) (by omega)
        omega)
    simp [h1]

theorem start_send_disc {α : Type} {c : Chan α} {S : Nat} (h : LInv c S true) :
    start_send c = (.disconnected, c) := by
  have h1 : c.tailIdx &&& MARK_BIT = 1 := by
    rw [h.tail_eq]
    show (2 * posL S + (if true = true then 1 else 0)) &&& 1 = 1
    rw [if_pos rfl]
    exact odd_and_one _
  simp only [start_send]
  rw [h1, if_pos (by norm_num : (1:Nat) ≠ 0)]

/-- A send on a connected list channel always finds a slot: the tail offset
of a reachable state is never the block-end marker. -/
theorem list_send_ok {α : Type} {c : Chan α} {S : Nat} (h : LInv c S false)
    (m : α) (dl : Option Unit) :
    ∃ c', send c m dl = some (c', none) ∧ LInv c' (S + 1) false := by
  have htail : c.tailIdx = 2 * posL S := by
    rw [h.tail_eq]
    simp
  have h1 : c.tailIdx &&& MARK_BIT = 0 := by
    rw [htail]
    exact even_and_one _
  have hshift : c.tailIdx >>> SHIFT = posL S := by
    rw [htail]
    show (2 * posL S) >>> 1 = _
    rw [shiftRight_one]
    omega
  have hoff : posL S % LAP = S % BLOCK_CAP := posL_offset S
  have hoffne : ¬ (S % BLOCK_CAP = BLOCK_CAP) := by
    have := Nat.mod_lt S (show 0 < BLOCK_CAP by decide)
    omega
  have hsucc := posL_succ S
  simp only [send, start_send]
  rw [h1, if_neg (by norm_num : ¬ (0:Nat) ≠ 0), hshift, hoff, if_neg hoffne]
  have hsh2 : (1 <<< SHIFT) = 2 := rfl
  refine ⟨_, rfl, ?_, ?_⟩
  · show (if S % BLOCK_CAP + 1 = BLOCK_CAP
        then { (if c.tailBlockNull then
            { c with tailBlockNull := false, headBlockNull := false } else c) with
            tailIdx := c.tailIdx + (1 <<< SHIFT) + (1 <<< SHIFT) }
        else { (if c.tailBlockNull then
            { c with tailBlockNull := false, headBlockNull := false } else c) with
            tailIdx := c.tailIdx + (1 <<< SHIFT) }).tailIdx =
      2 * posL (S + 1) + (if false = true then 1 else 0)
    by_cases hb : S % BLOCK_CAP + 1 = BLOCK_CAP
    · rw [if_pos hb] at hsucc
      rw [if_pos hb]
      cases hnull : c.tailBlockNull <;>
        simp only [hnull, ite_true, ite_false, Bool.false_eq_true] <;>
        rw [hsh2, htail] <;> simp <;> omega
    · rw [if_neg hb] at hsucc
      rw [if_neg hb]
      cases hnull : c.tailBlockNull <;>
        simp only [hnull, ite_true, ite_false, Bool.false_eq_true] <;>
        rw [hsh2, htail] <;> simp <;> omega
  · show (if S % BLOCK_CAP + 1 = BLOCK_CAP
        then { (if c.tailBlockNull then
            { c with tailBlockNull := false, headBlockNull := false } else c) with
            tailIdx := c.tailIdx + (1 <<< SHIFT) + (1 <<< SHIFT) }
        else { (if c.tailBlockNull then
            { c with tailBlockNull := false, headBlockNull := false } else c) with
            tailIdx := c.tailIdx + (1 <<< SHIFT) }).tailBlockNull =
      decide (S + 1 = 0)
    have hnl := h.null_eq
    by_cases hb : S % BLOCK_CAP + 1 = BLOCK_CAP <;>
      [rw [if_pos hb]; rw [if_neg hb]] <;>
      cases hnull : c.tailBlockNull <;>
        simp only [hnull, ite_true, ite_false, Bool.false_eq_true] <;>
        simp [hnull] at hnl ⊢

/-- The failing outcomes of one `start_send` pass leave the channel
untouched. -/
theorem start_send_shape {α : Type} (c : Chan α) :
    start_send c = (.disconnected, c) ∨ start_send c = (.spin, c) ∨
    ∃ pos off c3, start_send c = (.token pos off, c3) := by
  simp only [start_send]
  split
  · exact Or.inl rfl
  · split
    · exact Or.inr (Or.inl rfl)
    · exact Or.inr (Or.inr ⟨_, _, _, rfl⟩)

/-- A failed list `send` returns the caller's message inside `Disconnected`
and leaves the channel unchanged. -/
theorem list_send_err {α : Type} {c c' : Chan α} {m : α} {dl : Option Unit}
    {e : SendTimeoutError α} (h : send c m dl = some (c', some e)) :
    c' = c ∧ e = SendTimeoutError.disconnected m := by
  unfold send at h
  rcases start_send_shape c with h0 | h0 | ⟨pos, off, c3, h0⟩ <;> rw [h0] at h
  · simp only [Option.some.injEq, Prod.mk.injEq] at h
    exact ⟨h.1.symm, h.2.symm⟩
  · simp at h
  · simp at h

/-- A failed list `try_send` likewise. -/
theorem list_try_send_err {α : Type} {c c' : Chan α} {m : α}
    {e : TrySendError α} (h : try_send c m = some (c', some e)) :
    c' = c ∧ e = TrySendError.disconnected m := by
  unfold try_send at h
  rcases hs : send c m none with - | ⟨c2, e2⟩
  · rw [hs] at h
    simp at h
  · rcases e2 with - | e3
    · rw [hs] at h
      simp at h
    · rcases e3 with msg | msg
      · rw [hs] at h
        simp at h
      · rw [hs] at h
        simp only [Option.some.injEq, Prod.mk.injEq] at h
        obtain ⟨hc, he⟩ := h
        obtain ⟨hc2, he2⟩ := list_send_err hs
        injection he2 with hmsg
        exact ⟨hc.symm.trans hc2, by rw [← he, hmsg]⟩

end ListCh

/-- C4: the list (unbounded) channel's `send` returns `Ok(())` or
`Disconnected(m)` and never `Timeout`; its `try_send` never returns `Full`;
on every reachable connected state the send succeeds, and the fresh channel
is such a state. -/
theorem C4_list_send (α : Type) (c : ListCh.Chan α) (m : α) (dl : Option Unit) :
    (∀ c' e, ListCh.send c m dl = some (c', some e) →
      e = SendTimeoutError.disconnected m) ∧
    (∀ c' e, ListCh.try_send c m = some (c', some e) →
      e = TrySendError.disconnected m) ∧
    (∀ S, ListCh.LInv c S false →
      ∃ c', ListCh.send c m dl = some (c', none) ∧ ListCh.LInv c' (S + 1) false) ∧
    ListCh.LInv (ListCh.mkNew α) 0 false := by
  refine ⟨?_, ?_, ?_, ?_⟩
  · intro c' e h
    exact (ListCh.list_send_err h).2
  · intro c' e h
    exact (ListCh.list_try_send_err h).2
  · intro S hS
    exact ListCh.list_send_ok hS m dl
  · exact ⟨by rfl, by rfl⟩

/-- C4 witness: the success clause applied to the fresh channel and the
message `5`. -/
theorem C4_list_send_witness :
    ∃ c', ListCh.send (ListCh.mkNew Nat) 5 none = some (c', none) ∧
      ListCh.LInv c' 1 false :=
  (C4_list_send Nat (ListCh.mkNew Nat) 5 none).2.2.1 0 ⟨by decide, by decide⟩

namespace ListCh

/-- The receive side never touches the tail index or the tail-block flag. -/
theorem start_recv_tail {α : Type} (c : Chan α) :
    (start_recv c).2.tailIdx = c.tailIdx ∧
    (start_recv c).2.tailBlockNull = c.tailBlockNull := by
  constructor <;>
    · simp only [start_recv]
      repeat' split
      all_goals rfl

theorem read_tail {α : Type} {c c2 : Chan α} {pos off : Nat} {m : α}
    (h : read c pos off = some (c2, m)) :
    c2.tailIdx = c.tailIdx ∧ c2.tailBlockNull = c.tailBlockNull := by
  simp only [read] at h
  repeat' split at h
  all_goals
    first
      | exact Option.noConfusion h
      | (simp only [Option.some.injEq, Prod.mk.injEq] at h
         obtain ⟨h1, -⟩ := h
         rw [← h1]
         exact ⟨rfl, rfl⟩)

theorem try_recv_tail {α : Type} {c c2 : Chan α} {r : Except TryRecvError α}
    (h : try_recv c = some (c2, r)) :
    c2.tailIdx = c.tailIdx ∧ c2.tailBlockNull = c.tailBlockNull := by
  unfold try_recv at h
  rcases h0 : start_recv c with ⟨tag, cm⟩
  have hcm : cm.tailIdx = c.tailIdx ∧ cm.tailBlockNull = c.tailBlockNull := by
    have h2 := start_recv_tail c
    rw [h0] at h2
    exact h2
  rw [h0] at h
  cases tag with
  | token pos off =>
    dsimp only at h
    rcases h1 : read cm pos off with - | ⟨c3, m⟩
    · rw [h1] at h
      simp at h
    · rw [h1] at h
      simp only [Option.some.injEq, Prod.mk.injEq] at h
      obtain ⟨h2, -⟩ := h
      have h3 := read_tail h1
      rw [← h2]
      exact ⟨h3.1.trans hcm.1, h3.2.trans hcm.2⟩
  | disconnected =>
    dsimp only at h
    simp only [Option.some.injEq, Prod.mk.injEq] at h
    obtain ⟨h2, -⟩ := h
    rw [← h2]
    exact hcm
  | notReady =>
    dsimp only at h
    simp only [Option.some.injEq, Prod.mk.injEq] at h
    obtain ⟨h2, -⟩ := h
    rw [← h2]
    exact hcm
  | spin =>
    dsimp only at h
    exact Option.noConfusion h

theorem or_one_and_one (t : Nat) : (t ||| 1) &&& 1 = 1 := by
  rcases Nat.even_or_odd t with ⟨p, hp⟩ | ⟨p, hp⟩
  · subst hp
    rw [show p + p = 2 * p by ring, even_or_one]
    exact odd_and_one p
  · subst hp
    rw [odd_or_one]
    exact odd_and_one p

theorem and_one_eq_one {t : Nat} (h : t &&& 1 ≠ 0) : t &&& 1 = 1 := by
  rw [Nat.and_one_is_mod] at h ⊢
  omega

theorem or_one_self {t : Nat} (h : t &&& 1 = 1) : t ||| 1 = t := by
  rw [Nat.and_one_is_mod] at h
  obtain ⟨p, hp⟩ : ∃ p, t = 2 * p + 1 := ⟨t / 2, by omega⟩
  subst hp
  exact odd_or_one p

/-- `disconnect_senders` reports whether the mark bit was clear, leaves the
channel disconnected, and is a no-op on an already-disconnected channel. -/
theorem disconnect_senders_spec {α : Type} (c : Chan α) :
    (disconnect_senders c).2 = !is_disconnected c ∧
    is_disconnected (disconnect_senders c).1 = true ∧
    (is_disconnected c = true → (disconnect_senders c).1 = c) := by
  refine ⟨?_, ?_, ?_⟩
  · show (c.tailIdx &&& MARK_BIT == 0) = !(c.tailIdx &&& MARK_BIT != 0)
    rw [bne, Bool.not_not]
  · show ((c.tailIdx ||| MARK_BIT) &&& MARK_BIT != 0) = true
    rw [show MARK_BIT = 1 from rfl, or_one_and_one]
    rfl
  · intro hd
    show ({ c with tailIdx := c.tailIdx ||| MARK_BIT } : Chan α) = c
    have h1 : c.tailIdx &&& 1 = 1 := by
      apply and_one_eq_one
      intro h0
      rw [is_disconnected, show MARK_BIT = 1 from rfl, h0] at hd
      simp at hd
    rw [show MARK_BIT = 1 from rfl, or_one_self h1]

/-- On an already-disconnected channel, `start_send` reports the sentinel and
leaves the channel untouched (no `LInv` needed). -/
theorem start_send_disc_raw {α : Type} {c : Chan α}
    (hd : is_disconnected c = true) : start_send c = (.disconnected, c) := by
  have h1 : c.tailIdx &&& MARK_BIT ≠ 0 := by
    intro h0
    rw [is_disconnected, h0] at hd
    simp at hd
  simp only [start_send]
  rw [if_pos h1]

/-- `try_send` on a disconnected channel returns the message and changes
nothing. -/
theorem list_try_send_disc {α : Type} {c : Chan α}
    (hd : is_disconnected c = true) (m : α) :
    try_send c m = some (c, some (TrySendError.disconnected m)) := by
  unfold try_send send
  rw [start_send_disc_raw hd]

/-- `disconnect_receivers` semantics: no-op on an already-disconnected
channel, marks the channel otherwise, and always reports whether this call
performed the transition. -/
theorem disconnect_receivers_spec {α : Type} (c : Chan α) :
    (is_disconnected c = true → disconnect_receivers c = some (c, false)) ∧
    (∀ c2 b, disconnect_receivers c = some (c2, b) →
      is_disconnected c2 = true ∧ b = !is_disconnected c) := by
  constructor
  · intro hd
    have h1 : c.tailIdx &&& 1 = 1 := by
      apply and_one_eq_one
      intro h0
      rw [is_disconnected, show MARK_BIT = 1 from rfl, h0] at hd
      simp at hd
    unfold disconnect_receivers
    rw [show MARK_BIT = 1 from rfl, if_neg (by rw [h1]; norm_num), or_one_self h1]
  · intro c2 b h
    unfold disconnect_receivers at h
    by_cases h0 : c.tailIdx &&& MARK_BIT = 0
    · rw [if_pos h0] at h
      have hdc : is_disconnected c = false := by
        rw [is_disconnected, h0]
        rfl
      rcases h1 : discard_all_messages
          ({ c with tailIdx := c.tailIdx ||| MARK_BIT } : Chan α) with - | c3
      · rw [h1] at h
        exact Option.noConfusion h
      · rw [h1] at h
        simp only [Option.map, Option.some.injEq, Prod.mk.injEq] at h
        obtain ⟨h2, h3⟩ := h
        have htl : c3.tailIdx = c.tailIdx ||| MARK_BIT := by
          unfold discard_all_messages at h1
          split at h1
          · simp at h1
          · simp only [Option.some.injEq] at h1
            rw [← h1]
        refine ⟨?_, by simp [hdc, ← h3]⟩
        rw [← h2, is_disconnected, htl, show MARK_BIT = 1 from rfl, or_one_and_one]
        rfl
    · rw [if_neg h0] at h
      simp only [Option.some.injEq, Prod.mk.injEq] at h
      obtain ⟨h2, h3⟩ := h
      have hdc : is_disconnected c = true := by
        rw [is_disconnected, show MARK_BIT = 1 from rfl]
        rw [show MARK_BIT = 1 from rfl] at h0
        rw [and_one_eq_one h0]
        rfl
      have h1 : c.tailIdx &&& 1 = 1 := by
        rw [show MARK_BIT = 1 from rfl] at h0
        exact and_one_eq_one h0
      refine ⟨?_, by simp [hdc, ← h3]⟩
      rw [← h2, is_disconnected, show MARK_BIT = 1 from rfl, or_one_and_one]
      rfl

/-- A reachable channel can always run `discard_all_messages`: the marked
tail is never parked on a block boundary. -/
theorem disconnect_receivers_total {α : Type} {c : Chan α} {S : Nat} {d : Bool}
    (h : LInv c S d) : ∃ c2 b, disconnect_receivers c = some (c2, b) := by
  have hoff : ((c.tailIdx ||| MARK_BIT) >>> SHIFT) % LAP ≠ BLOCK_CAP := by
    have ht := h.tail_eq
    have hor : c.tailIdx ||| MARK_BIT = 2 * posL S + 1 := by
      rw [ht, show MARK_BIT = 1 from rfl]
      cases d
      · simp only [if_neg (by simp : ¬ (false = true))]
        exact even_or_one _
      · simp only [if_pos rfl]
        exact odd_or_one _
    rw [hor, show SHIFT = 1 from rfl, shiftRight_one,
      show (2 * posL S + 1) / 2 = posL S by omega, posL_offset]
    have h2 := Nat.mod_lt S (show 0 < BLOCK_CAP by decide)
    omega
  unfold disconnect_receivers discard_all_messages
  by_cases h0 : c.tailIdx &&& MARK_BIT = 0
  · rw [if_pos h0]
    rw [if_neg (by exact hoff)]
    exact ⟨_, _, rfl⟩
  · rw [if_neg h0]
    exact ⟨_, _, rfl⟩

end ListCh

/-- A scan that selects nothing also leaves the context store untouched. -/
theorem wakerScan_none_sigma (tid : Nat) (σ : CtxStore) (l : List Entry)
    (h : (wakerScan tid σ l).1 = none) : (wakerScan tid σ l).2.2 = σ := by
  induction l with
  | nil => rfl
  | cons e rest ih =>
    by_cases ht : (σ e.cx).thread_id ≠ tid
    · by_cases hs : (σ e.cx).select = Selected.waiting.toUsize
      · simp [wakerScan, ht, Context.try_select, hs] at h
      · simp only [wakerScan, if_pos ht] at h ⊢
        simp only [Context.try_select, if_neg hs] at h ⊢
        exact ih h
    · simp only [wakerScan, if_neg ht] at h ⊢
      exact ih h

/-- `Waker::try_select` that selects nothing is observably a no-op. -/
theorem waker_try_select_none {w : Waker} {tid : Nat} {σ : CtxStore}
    {w' : Waker} {σ' : CtxStore}
    (h : Waker.try_select w tid σ = (none, w', σ')) : w' = w ∧ σ' = σ := by
  unfold Waker.try_select at h
  have h1 : (wakerScan tid σ w.selectors).1 = none := by
    have h2 := congrArg Prod.fst h
    simpa using h2
  rcases wakerScan_spec tid σ w.selectors with ⟨-, h2⟩ | ⟨e, l1, l2, h3, -, -⟩
  · have h4 := wakerScan_none_sigma tid σ w.selectors h1
    have h5 := congrArg (fun p => p.2.1) h
    have h6 := congrArg (fun p => p.2.2) h
    simp only at h5 h6
    constructor
    · rw [← h5, h2]
    · rw [← h6, h4]
  · rw [h1] at h3
    exact Option.noConfusion h3

/-! ## `zero.rs`: the zero-capacity (rendezvous) channel

The state behind the mutex is a pair of wakers and the disconnect flag;
message packets live in an external packet store indexed by token value,
`0` modeling the null token, and contexts in the shared `CtxStore`. -/

namespace ZeroCh

/-- `Packet<T>` from `zero.rs`. -/
structure Packet (α : Type) where
  on_stack : Bool
  ready : Bool
  msg : Option α

def Packet.empty_on_stack (α : Type) : Packet α := ⟨true, false, none⟩

def Packet.message_on_stack {α : Type} (m : α) : Packet α := ⟨true, false, some m⟩

/-- The packet store. -/
def PStore (α : Type) : Type := Nat → Packet α

def PStore.update {α : Type} (π : PStore α) (n : Nat) (p : Packet α) : PStore α :=
  fun j => if j = n then p else π j

theorem PStore.update_self {α : Type} (π : PStore α) (n : Nat) (p : Packet α) :
    PStore.update π n p n = p := by
  unfold PStore.update
  simp

/-- `Inner` behind the mutex of the zero channel. -/
structure Chan where
  senders : Waker
  receivers : Waker
  is_disconnected : Bool

/-- `Channel::new`. -/
def mkNew : Chan := ⟨⟨[], []⟩, ⟨[], []⟩, false⟩

/-- `Channel::write`: store the message in the token's packet and mark it
ready; a null token hands the message back. -/
def write {α : Type} (π : PStore α) (tok : Nat) (m : α) : Except α (PStore α) :=
  if tok = 0 then Except.error m
  else Except.ok (π.update tok { π tok with msg := some m, ready := true })

/-- `Channel::read`: take the message out of the token's packet.  A null
token errors; a heap packet that is not yet ready would `wait_ready`
forever under the sequential semantics (`none`), as would `unwrap` on an
empty packet. -/
def read {α : Type} (π : PStore α) (tok : Nat) :
    Option (Except Unit (PStore α × α)) :=
  if tok = 0 then some (Except.error ())
  else
    let p := π tok
    if p.on_stack then
      match p.msg with
      | none => none
      | some m =>
        some (Except.ok (π.update tok { p with msg := none, ready := true }, m))
    else
      if p.ready then
        match p.msg with
        | none => none
        | some m => some (Except.ok (π.update tok { p with msg := none }, m))
      else none

/-- `Channel::try_send` (caller thread id `tid`). -/
def try_send {α : Type} (c : Chan) (σ : CtxStore) (π : PStore α) (tid : Nat)
    (m : α) : Option (Chan × CtxStore × PStore α × Option (TrySendError α)) :=
  match Waker.try_select c.receivers tid σ with
  | (some entry, w', σ') =>
    match write π entry.packet m with
    | Except.ok π' => some ({ c with receivers := w' }, σ', π', none)
    | Except.error _ => none
  | (none, w', σ') =>
    if c.is_disconnected then
      some ({ c with receivers := w' }, σ', π, some (TrySendError.disconnected m))
    else
      some ({ c with receivers := w' }, σ', π, some (TrySendError.full m))

/-- `Channel::send`.  With no paired receiver and no disconnect, a deadline
is the only sequential way out of `wait_until`: the context self-selects
`Aborted`, the entry is unregistered and the message is recovered from the
on-stack packet (fresh id `pid`, context id `cid`).  Without a deadline the
thread parks forever (`none`). -/
def send {α : Type} (c : Chan) (σ : CtxStore) (π : PStore α) (tid : Nat)
    (m : α) (oper : Operation) (cid pid : Nat) (deadline : Bool) :
    Option (Chan × CtxStore × PStore α × Option (SendTimeoutError α)) :=
  match Waker.try_select c.receivers tid σ with
  | (some entry, w', σ') =>
    match write π entry.packet m with
    | Except.ok π' => some ({ c with receivers := w' }, σ', π', none)
    | Except.error _ => none
  | (none, w', σ') =>
    if c.is_disconnected then
      some ({ c with receivers := w' }, σ', π,
        some (SendTimeoutError.disconnected m))
    else if deadline then
      let π1 := PStore.update π pid (Packet.message_on_stack m)
      let s1 := Waker.register_with_packet c.senders oper pid cid
      let rn := Waker.notify w' σ'
      let σ2 := CtxStore.update rn.2 cid ((rn.2 cid).try_select Selected.aborted).1
      let ur := Waker.unregister s1 oper
      match ur.1, (π1 pid).msg with
      | some _, some msg =>
        some ({ c with senders := ur.2
                       receivers := rn.1 },
          σ2, π1.update pid { π1 pid with msg := none },
          some (SendTimeoutError.timeout msg))
      | _, _ => none
    else none

/-- `Channel::try_recv`. -/
def try_recv {α : Type} (c : Chan) (σ : CtxStore) (π : PStore α) (tid : Nat) :
    Option (Chan × CtxStore × PStore α × Except TryRecvError α) :=
  match Waker.try_select c.senders tid σ with
  | (some entry, w', σ') =>
    match read π entry.packet with
    | some (Except.ok (π', m)) =>
      some ({ c with senders := w' }, σ', π', Except.ok m)
    | some (Except.error _) =>
      some ({ c with senders := w' }, σ', π,
        Except.error TryRecvError.disconnected)
    | none => none
  | (none, w', σ') =>
    if c.is_disconnected then
      some ({ c with senders := w' }, σ', π,
        Except.error TryRecvError.disconnected)
    else
      some ({ c with senders := w' }, σ', π, Except.error TryRecvError.empty)

/-- `Channel::recv` (cf. `send`). -/
def recv {α : Type} (c : Chan) (σ : CtxStore) (π : PStore α) (tid : Nat)
    (oper : Operation) (cid pid : Nat) (deadline : Bool) :
    Option (Chan × CtxStore × PStore α × Except RecvTimeoutError α) :=
  match Waker.try_select c.senders tid σ with
  | (some entry, w', σ') =>
    match read π entry.packet with
    | some (Except.ok (π', m)) =>
      some ({ c with senders := w' }, σ', π', Except.ok m)
    | some (Except.error _) =>
      some ({ c with senders := w' }, σ', π,
        Except.error RecvTimeoutError.disconnected)
    | none => none
  | (none, w', σ') =>
    if c.is_disconnected then
      some ({ c with senders := w' }, σ', π,
        Except.error RecvTimeoutError.disconnected)
    else if deadline then
      let π1 := PStore.update π pid (Packet.empty_on_stack α)
      let r1 := Waker.register_with_packet c.receivers oper pid cid
      let sn := Waker.notify w' σ'
      let σ2 := CtxStore.update sn.2 cid ((sn.2 cid).try_select Selected.aborted).1
      let ur := Waker.unregister r1 oper
      match ur.1 with
      | some _ =>
        some ({ c with senders := sn.1
                       receivers := ur.2 },
          σ2, π1, Except.error RecvTimeoutError.timeout)
      | none => none
    else none

/-- `Channel::disconnect`: flip the flag if it was clear and run both
wakers' `disconnect()`. -/
def disconnect (c : Chan) (σ : CtxStore) : (Chan × CtxStore) × Bool :=
  if c.is_disconnected = false then
    let s := Waker.disconnect c.senders σ
    let r := Waker.disconnect c.receivers s.2
    ((⟨s.1, r.1, true⟩, r.2), true)
  else ((c, σ), false)

/-- `Channel::len`. -/
def len (_ : Chan) : Nat := 0

/-- `Channel::capacity`. -/
def capacity (_ : Chan) : Option Nat := some 0

/-- `Channel::is_empty`. -/
def is_empty (_ : Chan) : Bool := true

/-- `Channel::is_full`. -/
def is_full (_ : Chan) : Bool := true

end ZeroCh

namespace ZeroCh

/-- A failed zero `try_send` carries the caller's message and changes
nothing. -/
theorem try_send_err {α : Type} {c c' : Chan} {σ σ' : CtxStore}
    {π π' : PStore α} {tid : Nat} {m : α} {e : TrySendError α}
    (h : try_send c σ π tid m = some (c', σ', π', some e)) :
    (e = TrySendError.full m ∨ e = TrySendError.disconnected m) ∧
    c' = c ∧ σ' = σ ∧ π' = π := by
  unfold try_send at h
  rcases h0 : Waker.try_select c.receivers tid σ with ⟨o, w2, σ2⟩
  rw [h0] at h
  cases o with
  | some entry =>
    try dsimp only at h
    unfold write at h
    by_cases hp : entry.packet = 0
    · rw [if_pos hp] at h
      exact Option.noConfusion h
    · rw [if_neg hp] at h
      simp at h
  | none =>
    try dsimp only at h
    obtain ⟨hw, hσ⟩ := waker_try_select_none h0
    by_cases hd : c.is_disconnected
    · rw [if_pos hd] at h
      simp only [Option.some.injEq, Prod.mk.injEq] at h
      obtain ⟨h1, h2, h3, h4⟩ := h
      refine ⟨Or.inr h4.symm, ?_, ?_, h3.symm⟩
      · rw [← h1, hw]
      · rw [← h2, hσ]
    · rw [if_neg hd] at h
      simp only [Option.some.injEq, Prod.mk.injEq] at h
      obtain ⟨h1, h2, h3, h4⟩ := h
      refine ⟨Or.inl h4.symm, ?_, ?_, h3.symm⟩
      · rw [← h1, hw]
      · rw [← h2, hσ]

/-- A failed zero `send` returns `Timeout(m)` or `Disconnected(m)`, always
with the caller's message; the observables are untouched. -/
theorem send_err {α : Type} {c c' : Chan} {σ σ' : CtxStore} {π π' : PStore α}
    {tid : Nat} {m : α} {oper : Operation} {cid pid : Nat} {dl : Bool}
    {e : SendTimeoutError α}
    (h : send c σ π tid m oper cid pid dl = some (c', σ', π', some e)) :
    e = SendTimeoutError.timeout m ∨ e = SendTimeoutError.disconnected m := by
  unfold send at h
  rcases h0 : Waker.try_select c.receivers tid σ with ⟨o, w2, σ2⟩
  rw [h0] at h
  cases o with
  | some entry =>
    try dsimp only at h
    unfold write at h
    by_cases hp : entry.packet = 0
    · rw [if_pos hp] at h
      exact Option.noConfusion h
    · rw [if_neg hp] at h
      simp at h
  | none =>
    try dsimp only at h
    by_cases hd : c.is_disconnected
    · rw [if_pos hd] at h
      simp only [Option.some.injEq, Prod.mk.injEq] at h
      exact Or.inr h.2.2.2.symm
    · rw [if_neg hd] at h
      by_cases hdl : dl
      · rw [if_pos hdl] at h
        try dsimp only at h
        rw [PStore.update_self] at h
        dsimp only [Packet.message_on_stack] at h
        rcases hur : (Waker.unregister
            (Waker.register_with_packet c.senders oper pid cid) oper).1
          with - | e2 <;> rw [hur] at h
        · exact Option.noConfusion h
        · try dsimp only at h
          simp only [Option.some.injEq, Prod.mk.injEq] at h
          exact Or.inl h.2.2.2.symm
      · rw [if_neg hdl] at h
        exact Option.noConfusion h

/-- `try_send` never clears nor sets the disconnect flag. -/
theorem try_send_flag {α : Type} {c c' : Chan} {σ σ' : CtxStore}
    {π π' : PStore α} {tid : Nat} {m : α} {e : Option (TrySendError α)}
    (h : try_send c σ π tid m = some (c', σ', π', e)) :
    c'.is_disconnected = c.is_disconnected := by
  unfold try_send at h
  rcases h0 : Waker.try_select c.receivers tid σ with ⟨o, w2, σ2⟩
  rw [h0] at h
  cases o with
  | some entry =>
    try dsimp only at h
    unfold write at h
    by_cases hp : entry.packet = 0
    · rw [if_pos hp] at h
      exact Option.noConfusion h
    · rw [if_neg hp] at h
      simp only [Option.some.injEq, Prod.mk.injEq] at h
      obtain ⟨h1, -⟩ := h
      rw [← h1]
  | none =>
    try dsimp only at h
    by_cases hd : c.is_disconnected <;>
      [rw [if_pos hd] at h; rw [if_neg hd] at h] <;>
      simp only [Option.some.injEq, Prod.mk.injEq] at h <;>
      obtain ⟨h1, -⟩ := h <;> rw [← h1]

/-- `send` never clears nor sets the disconnect flag. -/
theorem send_flag {α : Type} {c c' : Chan} {σ σ' : CtxStore} {π π' : PStore α}
    {tid : Nat} {m : α} {oper : Operation} {cid pid : Nat} {dl : Bool}
    {e : Option (SendTimeoutError α)}
    (h : send c σ π tid m oper cid pid dl = some (c', σ', π', e)) :
    c'.is_disconnected = c.is_disconnected := by
  unfold send at h
  rcases h0 : Waker.try_select c.receivers tid σ with ⟨o, w2, σ2⟩
  rw [h0] at h
  cases o with
  | some entry =>
    try dsimp only at h
    unfold write at h
    by_cases hp : entry.packet = 0
    · rw [if_pos hp] at h
      exact Option.noConfusion h
    · rw [if_neg hp] at h
      simp only [Option.some.injEq, Prod.mk.injEq] at h
      obtain ⟨h1, -⟩ := h
      rw [← h1]
  | none =>
    try dsimp only at h
    by_cases hd : c.is_disconnected
    · rw [if_pos hd] at h
      simp only [Option.some.injEq, Prod.mk.injEq] at h
      obtain ⟨h1, -⟩ := h
      rw [← h1]
    · rw [if_neg hd] at h
      by_cases hdl : dl
      · rw [if_pos hdl] at h
        try dsimp only at h
        rw [PStore.update_self] at h
        dsimp only [Packet.message_on_stack] at h
        rcases hur : (Waker.unregister
            (Waker.register_with_packet c.senders oper pid cid) oper).1
          with - | e2 <;> rw [hur] at h
        · exact Option.noConfusion h
        · try dsimp only at h
          simp only [Option.some.injEq, Prod.mk.injEq] at h
          obtain ⟨h1, -⟩ := h
          rw [← h1]
      · rw [if_neg hdl] at h
        exact Option.noConfusion h

/-- `try_recv` never clears nor sets the disconnect flag. -/
theorem try_recv_flag {α : Type} {c c' : Chan} {σ σ' : CtxStore}
    {π π' : PStore α} {tid : Nat} {r : Except TryRecvError α}
    (h : try_recv c σ π tid = some (c', σ', π', r)) :
    c'.is_disconnected = c.is_disconnected := by
  unfold try_recv at h
  rcases h0 : Waker.try_select c.senders tid σ with ⟨o, w2, σ2⟩
  rw [h0] at h
  cases o with
  | some entry =>
    try dsimp only at h
    rcases h1 : read π entry.packet with - | (e3 | ⟨π3, m3⟩) <;> rw [h1] at h
    · exact Option.noConfusion h
    · try dsimp only at h
      simp only [Option.some.injEq, Prod.mk.injEq] at h
      obtain ⟨h2, -⟩ := h
      rw [← h2]
    · try dsimp only at h
      simp only [Option.some.injEq, Prod.mk.injEq] at h
      obtain ⟨h2, -⟩ := h
      rw [← h2]
  | none =>
    try dsimp only at h
    by_cases hd : c.is_disconnected <;>
      [rw [if_pos hd] at h; rw [if_neg hd] at h] <;>
      simp only [Option.some.injEq, Prod.mk.injEq] at h <;>
      obtain ⟨h1, -⟩ := h <;> rw [← h1]

/-- `recv` never clears nor sets the disconnect flag. -/
theorem recv_flag {α : Type} {c c' : Chan} {σ σ' : CtxStore} {π π' : PStore α}
    {tid : Nat} {oper : Operation} {cid pid : Nat} {dl : Bool}
    {r : Except RecvTimeoutError α}
    (h : recv c σ π tid oper cid pid dl = some (c', σ', π', r)) :
    c'.is_disconnected = c.is_disconnected := by
  unfold recv at h
  rcases h0 : Waker.try_select c.senders tid σ with ⟨o, w2, σ2⟩
  rw [h0] at h
  cases o with
  | some entry =>
    try dsimp only at h
    rcases h1 : read π entry.packet with - | (e3 | ⟨π3, m3⟩) <;> rw [h1] at h
    · exact Option.noConfusion h
    · try dsimp only at h
      simp only [Option.some.injEq, Prod.mk.injEq] at h
      obtain ⟨h2, -⟩ := h
      rw [← h2]
    · try dsimp only at h
      simp only [Option.some.injEq, Prod.mk.injEq] at h
      obtain ⟨h2, -⟩ := h
      rw [← h2]
  | none =>
    try dsimp only at h
    by_cases hd : c.is_disconnected
    · rw [if_pos hd] at h
      simp only [Option.some.injEq, Prod.mk.injEq] at h
      obtain ⟨h1, -⟩ := h
      rw [← h1]
    · rw [if_neg hd] at h
      by_cases hdl : dl
      · rw [if_pos hdl] at h
        try dsimp only at h
        rcases hur : (Waker.unregister
            (Waker.register_with_packet c.receivers oper pid cid) oper).1
          with - | e2 <;> rw [hur] at h
        · exact Option.noConfusion h
        · try dsimp only at h
          simp only [Option.some.injEq, Prod.mk.injEq] at h
          obtain ⟨h1, -⟩ := h
          rw [← h1]
      · rw [if_neg hdl] at h
        exact Option.noConfusion h

/-- `disconnect` reports whether it performed the transition, leaves the
flag set, and is a no-op on an already-disconnected channel. -/
theorem zero_disconnect_spec (c : Chan) (σ : CtxStore) :
    (disconnect c σ).2 = !c.is_disconnected ∧
    ((disconnect c σ).1.1).is_disconnected = true ∧
    (c.is_disconnected = true → (disconnect c σ).1 = (c, σ)) := by
  cases hd : c.is_disconnected
  · refine ⟨?_, ?_, ?_⟩
    · simp [disconnect, hd]
    · simp [disconnect, hd]
    · intro h1
      exact Bool.noConfusion h1
  · refine ⟨?_, ?_, ?_⟩
    · simp [disconnect, hd]
    · simp [disconnect, hd]
    · intro h1
      simp [disconnect, hd]

end ZeroCh

namespace ArrayCh

/-- The failing outcomes of one array `start_send` pass leave the channel
untouched. -/
theorem start_send_cases {α : Type} (c : Chan α) :
    start_send c = (.disconnected, c) ∨ start_send c = (.notReady, c) ∨
    start_send c = (.spin, c) ∨
    ∃ i s c2, start_send c = (.reserved i s, c2) := by
  simp only [start_send]
  split
  · exact Or.inl rfl
  · split
    · exact Or.inr (Or.inr (Or.inr ⟨_, _, _, rfl⟩))
    · split
      · split
        · exact Or.inr (Or.inl rfl)
        · exact Or.inr (Or.inr (Or.inl rfl))
      · exact Or.inr (Or.inr (Or.inl rfl))

end ArrayCh

/-- C3: whenever a send fails with an error carrying a message — array
`try_send` with `Full(m)` or `Disconnected(m)`, any flavor's `send` with
`Disconnected(m)`, zero or array `send` with a deadline and `Timeout(m)` —
the message inside the error is exactly the one the caller passed in, and
the failed operation leaves the observable state (`len`, `is_empty`,
`is_full`) unchanged. -/
theorem C3_error_preservation (α : Type) (m : α) :
    (∀ (c c' : ArrayCh.Chan α) e, ArrayCh.try_send c m = some (c', some e) →
      (e = TrySendError.full m ∨ e = TrySendError.disconnected m) ∧ c' = c ∧
      ArrayCh.len c' = ArrayCh.len c ∧
      ArrayCh.is_empty c' = ArrayCh.is_empty c ∧
      ArrayCh.is_full c' = ArrayCh.is_full c) ∧
    (∀ (c c' : ArrayCh.Chan α) (dl : Bool) e,
      ArrayCh.send c m dl = some (c', some e) →
      (e = SendTimeoutError.timeout m ∨ e = SendTimeoutError.disconnected m) ∧
      c' = c) ∧
    (∀ (c c' : ListCh.Chan α) (dl : Option Unit) e,
      ListCh.send c m dl = some (c', some e) →
      e = SendTimeoutError.disconnected m ∧ c' = c) ∧
    (∀ (c c' : ListCh.Chan α) e, ListCh.try_send c m = some (c', some e) →
      e = TrySendError.disconnected m ∧ c' = c) ∧
    (∀ (c c' : ZeroCh.Chan) (σ σ' : CtxStore) (π π' : ZeroCh.PStore α) tid e,
      ZeroCh.try_send c σ π tid m = some (c', σ', π', some e) →
      (e = TrySendError.full m ∨ e = TrySendError.disconnected m) ∧
      c' = c ∧ σ' = σ ∧ π' = π) ∧
    (∀ (c c' : ZeroCh.Chan) (σ σ' : CtxStore) (π π' : ZeroCh.PStore α)
        tid oper cid pid dl e,
      ZeroCh.send c σ π tid m oper cid pid dl = some (c', σ', π', some e) →
      (e = SendTimeoutError.timeout m ∨ e = SendTimeoutError.disconnected m) ∧
      ZeroCh.len c' = ZeroCh.len c ∧ ZeroCh.is_empty c' = ZeroCh.is_empty c ∧
      ZeroCh.is_full c' = ZeroCh.is_full c) := by
  refine ⟨?_, ?_, ?_, ?_, ?_, ?_⟩
  · intro c c' e h
    unfold ArrayCh.try_send at h
    rcases ArrayCh.start_send_cases c with h0 | h0 | h0 | ⟨i, st, c2, h0⟩ <;>
      rw [h0] at h
    · simp only [Option.some.injEq, Prod.mk.injEq] at h
      obtain ⟨h1, h2⟩ := h
      rw [← h1, ← h2]
      exact ⟨Or.inr rfl, rfl, rfl, rfl, rfl⟩
    · simp only [Option.some.injEq, Prod.mk.injEq] at h
      obtain ⟨h1, h2⟩ := h
      rw [← h1, ← h2]
      exact ⟨Or.inl rfl, rfl, rfl, rfl, rfl⟩
    · exact Option.noConfusion h
    · simp at h
  · intro c c' dl e h
    unfold ArrayCh.send at h
    rcases ArrayCh.start_send_cases c with h0 | h0 | h0 | ⟨i, st, c2, h0⟩ <;>
      rw [h0] at h
    · simp only [Option.some.injEq, Prod.mk.injEq] at h
      obtain ⟨h1, h2⟩ := h
      rw [← h1, ← h2]
      exact ⟨Or.inr rfl, rfl⟩
    · dsimp only at h
      by_cases hdl : dl = true
      · rw [if_pos hdl] at h
        simp only [Option.some.injEq, Prod.mk.injEq] at h
        obtain ⟨h1, h2⟩ := h
        rw [← h1, ← h2]
        exact ⟨Or.inl rfl, rfl⟩
      · rw [if_neg hdl] at h
        exact Option.noConfusion h
    · exact Option.noConfusion h
    · simp at h
  · intro c c' dl e h
    exact ⟨(ListCh.list_send_err h).2, (ListCh.list_send_err h).1⟩
  · intro c c' e h
    exact ⟨(ListCh.list_try_send_err h).2, (ListCh.list_try_send_err h).1⟩
  · intro c c' σ σ' π π' tid e h
    exact ZeroCh.try_send_err h
  · intro c c' σ σ' π π' tid oper cid pid dl e h
    exact ⟨ZeroCh.send_err h, rfl, rfl, rfl⟩

/-- C3 witness: the array clause on a concrete full one-slot channel and
message `7`. -/
theorem C3_error_preservation_witness :
    (TrySendError.full 7 = TrySendError.full (7 : Nat) ∨
      TrySendError.full 7 = TrySendError.disconnected 7) ∧
    (⟨0, 4, [(1, some 5)], 1, 4, 2⟩ : ArrayCh.Chan Nat) =
      ⟨0, 4, [(1, some 5)], 1, 4, 2⟩ ∧
    ArrayCh.len (⟨0, 4, [(1, some 5)], 1, 4, 2⟩ : ArrayCh.Chan Nat) =
      ArrayCh.len (⟨0, 4, [(1, some 5)], 1, 4, 2⟩ : ArrayCh.Chan Nat) ∧
    ArrayCh.is_empty (⟨0, 4, [(1, some 5)], 1, 4, 2⟩ : ArrayCh.Chan Nat) =
      ArrayCh.is_empty (⟨0, 4, [(1, some 5)], 1, 4, 2⟩ : ArrayCh.Chan Nat) ∧
    ArrayCh.is_full (⟨0, 4, [(1, some 5)], 1, 4, 2⟩ : ArrayCh.Chan Nat) =
      ArrayCh.is_full (⟨0, 4, [(1, some 5)], 1, 4, 2⟩ : ArrayCh.Chan Nat) :=
  (C3_error_preservation Nat 7).1 ⟨0, 4, [(1, some 5)], 1, 4, 2⟩
    ⟨0, 4, [(1, some 5)], 1, 4, 2⟩ (TrySendError.full 7) (by decide)

/-- C6: for each flavor, `disconnect` returns `true` exactly when the
mark/flag was clear before the call, the channel is disconnected afterwards
and stays so under every further operation, and later disconnect calls
change nothing. -/
theorem C6_disconnect (α : Type) :
    (∀ c : ArrayCh.Chan α,
      (ArrayCh.disconnect c).2 = !ArrayCh.is_disconnected c) ∧
    (∀ k S R msgs d (c : ArrayCh.Chan α), ArrayCh.Inv k c S R msgs d →
      ArrayCh.is_disconnected (ArrayCh.disconnect c).1 = true ∧
      ArrayCh.Inv k (ArrayCh.disconnect c).1 S R msgs true ∧
      (d = true → (ArrayCh.disconnect c).1 = c)) ∧
    (∀ k S R msgs (c : ArrayCh.Chan α), ArrayCh.Inv k c S R msgs true →
      ∀ ops c' sent recvd, ArrayCh.runA c ops = some (c', sent, recvd) →
        ArrayCh.is_disconnected c' = true) ∧
    (∀ c : ListCh.Chan α,
      (ListCh.disconnect_senders c).2 = !ListCh.is_disconnected c ∧
      ListCh.is_disconnected (ListCh.disconnect_senders c).1 = true ∧
      (ListCh.is_disconnected c = true → (ListCh.disconnect_senders c).1 = c)) ∧
    (∀ c : ListCh.Chan α,
      (ListCh.is_disconnected c = true →
        ListCh.disconnect_receivers c = some (c, false)) ∧
      (∀ c2 b, ListCh.disconnect_receivers c = some (c2, b) →
        ListCh.is_disconnected c2 = true ∧ b = !ListCh.is_disconnected c)) ∧
    (∀ (c : ListCh.Chan α) m, ListCh.is_disconnected c = true →
      ListCh.try_send c m = some (c, some (TrySendError.disconnected m))) ∧
    (∀ (c c2 : ListCh.Chan α) r, ListCh.try_recv c = some (c2, r) →
      ListCh.is_disconnected c2 = ListCh.is_disconnected c) ∧
    (∀ (c : ZeroCh.Chan) (σ : CtxStore),
      (ZeroCh.disconnect c σ).2 = !c.is_disconnected ∧
      ((ZeroCh.disconnect c σ).1.1).is_disconnected = true ∧
      (c.is_disconnected = true → (ZeroCh.disconnect c σ).1 = (c, σ))) ∧
    (∀ (c c' : ZeroCh.Chan) σ σ' (π π' : ZeroCh.PStore α) tid (m : α) e,
      ZeroCh.try_send c σ π tid m = some (c', σ', π', e) →
      c'.is_disconnected = c.is_disconnected) ∧
    (∀ (c c' : ZeroCh.Chan) σ σ' (π π' : ZeroCh.PStore α) tid (m : α)
        oper cid pid dl e,
      ZeroCh.send c σ π tid m oper cid pid dl = some (c', σ', π', e) →
      c'.is_disconnected = c.is_disconnected) ∧
    (∀ (c c' : ZeroCh.Chan) σ σ' (π π' : ZeroCh.PStore α) tid r,
      ZeroCh.try_recv c σ π tid = some (c', σ', π', r) →
      c'.is_disconnected = c.is_disconnected) ∧
    (∀ (c c' : ZeroCh.Chan) σ σ' (π π' : ZeroCh.PStore α) tid
        oper cid pid dl r,
      ZeroCh.recv c σ π tid oper cid pid dl = some (c', σ', π', r) →
      c'.is_disconnected = c.is_disconnected) := by
  refine ⟨?_, ?_, ?_, ?_, ?_, ?_, ?_, ?_, ?_, ?_, ?_, ?_⟩
  · intro c
    show (c.tail &&& c.mark_bit == 0) = !(c.tail &&& c.mark_bit != 0)
    rw [bne, Bool.not_not]
  · intro k S R msgs d c h
    obtain ⟨heq, hinv, hid⟩ := ArrayCh.disconnect_spec h
    refine ⟨?_, ?_, ?_⟩
    · rw [heq]
      exact ArrayCh.is_disconnected_spec hinv
    · rw [heq]
      exact hinv
    · intro hd
      rw [heq]
      exact hid hd
  · intro k S R msgs c h ops c' sent recvd hrun
    obtain ⟨c2, S', R', msgs', d', sent2, recvd2, hrun2, hinv2, -, -, -,
      hdmono, -⟩ := ArrayCh.runA_spec ops h
    rw [hrun2] at hrun
    simp only [Option.some.injEq, Prod.mk.injEq] at hrun
    obtain ⟨hc, -⟩ := hrun
    rw [← hc, ArrayCh.is_disconnected_spec hinv2]
    exact hdmono rfl
  · intro c
    exact ListCh.disconnect_senders_spec c
  · intro c
    exact ListCh.disconnect_receivers_spec c
  · intro c m hd
    exact ListCh.list_try_send_disc hd m
  · intro c c2 r h
    unfold ListCh.is_disconnected
    rw [(ListCh.try_recv_tail h).1]
  · intro c σ
    exact ZeroCh.zero_disconnect_spec c σ
  · intro c c' σ σ' π π' tid m e h
    exact ZeroCh.try_send_flag h
  · intro c c' σ σ' π π' tid m oper cid pid dl e h
    exact ZeroCh.send_flag h
  · intro c c' σ σ' π π' tid r h
    exact ZeroCh.try_recv_flag h
  · intro c c' σ σ' π π' tid oper cid pid dl r h
    exact ZeroCh.recv_flag h

/-- C6 witness: list `try_send` on a concretely disconnected channel keeps
the state and returns the message. -/
theorem C6_disconnect_witness :
    ListCh.try_send
        (⟨0, 1, true, true, fun _ => 0, fun _ => none⟩ : ListCh.Chan Nat) 3 =
      some (⟨0, 1, true, true, fun _ => 0, fun _ => none⟩,
        some (TrySendError.disconnected 3)) :=
  (C6_disconnect Nat).2.2.2.2.2.1
    (⟨0, 1, true, true, fun _ => 0, fun _ => none⟩ : ListCh.Chan Nat) 3 rfl

end Channel
